import Mathlib

/-! ## S3Download: the download job engine and the job registry

A shallow embedding of `internal/downloader/worker.go`, `internal/downloader/minio.go`,
`internal/job/store.go` and the context wiring of `internal/handler/handler.go`.

Conventions of the embedding

* A Go `error` is an `Option String`: `none` is `nil`, `some msg` is an error whose
  `Error()` text is `msg`.
* `uint64` counters and `int` loop counters are natural numbers / integers; no run that
  can be executed comes near `2^64` objects or `2^63` attempts.
* Everything outside the repository (the object store, the local file system, the
  request context, `path/filepath`) is a field of `World`.  Responses are indexed by
  the number of the listing call, the number of the fetch task and the number of the
  attempt, so a world can answer every call differently.
* `Worker` is embedded twice.  As an interleaving small-step machine (`step`, `exec`)
  in which the goroutines run concurrently, for all of its behaviour.  And as a
  function (`Worker`) that runs every fetch task to its end at the point where the
  goroutine is started, for the runs that end after `wg.Wait()`, where every
  goroutine has ended in any case; the function is one schedule of the machine
  (`Worker_is_a_schedule`).  The return after a failed listing does not wait for the
  goroutines, so only the machine describes it.
* A panic that nothing recovers ends the process: the function reports the exit
  `panicked`, the machine sets `crashed` and stops.
-/

namespace S3Download

/-- Go `error`: `none` is `nil`, `some msg` has `Error() = msg`. -/
abbrev GoError := Option String

namespace config

/-- The fields of `config.Config` read by the downloader. -/
structure Config where
  Concurrency : Int
  MaxRetries : Int
  deriving DecidableEq, Repr

end config

namespace downloader

open config

/-- JobStatus of `worker.go`. -/
structure JobStatus where
  Total : Nat
  Finished : Nat
  Failed : Nat
  Running : Bool
  LastError : String
  deriving DecidableEq, Repr

/-- ObjectInfo of `minio.go`. -/
structure ObjectInfo where
  Key : String
  Size : Int
  Mtime : String
  IsDir : Bool
  deriving DecidableEq, Repr

/-- One element received from the channel of the storage client's `ListObjects`:
the fields of `minio.ObjectInfo` that `Client.ListObjects` reads
(`LastModified` already formatted as RFC 3339). -/
structure RawObject where
  Err : GoError
  Key : String
  Size : Int
  LastModified : String
  deriving DecidableEq, Repr

/-- Which of the two `os.MkdirAll` call sites is asking. -/
inductive MkdirSite where
  | ensureDir
  | download
  deriving DecidableEq, Repr

/-- Everything the downloader calls outside the repository. -/
structure World where
  /-- The elements yielded by the storage client's listing channel at the `n`-th
  `Client.ListObjects` call, for `Prefix` and `StartAfter`. -/
  listing : Nat → String → String → List RawObject
  /-- Whether `ctx.Done()` is ready when fetch task `t` reaches its `select`. -/
  ctxDone : Nat → Bool
  /-- Result of `os.Stat path` in task `t`: the size when `err == nil`. -/
  stat : Nat → String → Option Int
  /-- Result of `os.MkdirAll dir 0o755` in task `t`, attempt `a`. -/
  mkdirAll : Nat → Nat → MkdirSite → String → GoError
  /-- Result of `FGetObject bucket key dest` in task `t`, attempt `a`. -/
  fGetObject : Nat → Nat → String → String → GoError
  /-- The function `filepath.Dir`. -/
  dir : String → String
  /-- The function `filepath.Join`. -/
  join : String → String → String

/-- What the run did, in program order. -/
inductive Event where
  /-- A call `cli.ListObjects pfx marker` that returned a page. -/
  | listObjects (pfx marker : String)
  /-- Fetch goroutine number `task` was started for `key`. -/
  | dispatch (task : Nat) (key : String)
  /-- Fetch task `task` entered iteration `attempt` of its retry loop. -/
  | attempt (task attempt : Nat)
  /-- A call `cli.Download key dest` and its result. -/
  | download (task attempt : Nat) (key dest : String) (err : GoError)
  deriving DecidableEq, Repr

/-- Recogniser of `Event.download`. -/
def Event.isDownload : Event → Bool
  | .download _ _ _ _ _ => true
  | _ => false

/-- Recogniser of `Event.attempt`. -/
def Event.isAttempt : Event → Bool
  | .attempt _ _ => true
  | _ => false

/-- Recogniser of `Event.listObjects`. -/
def Event.isList : Event → Bool
  | .listObjects _ _ => true
  | _ => false

/-- Number of `cli.Download` calls in a trace. -/
def downloadCalls (tr : List Event) : Nat := tr.countP Event.isDownload

/-- Number of retry-loop iterations in a trace. -/
def attempts (tr : List Event) : Nat := tr.countP Event.isAttempt

/-- Number of `cli.ListObjects` calls in a trace. -/
def listCalls (tr : List Event) : Nat := tr.countP Event.isList

/-- The state threaded through a run: the shared status record, how many listing
calls and fetch tasks there have been (they index the answers of the world), and the
trace. -/
structure Run where
  status : JobStatus
  nList : Nat
  nTask : Nat
  trace : List Event
  deriving DecidableEq, Repr

/-- Append an event to the trace. -/
def Run.log (r : Run) (e : Event) : Run := { r with trace := r.trace ++ [e] }

/-- The statement `atomic.AddUint64(&status.Total, 1)`. -/
def Run.addTotal (r : Run) : Run :=
  { r with status := { r.status with Total := r.status.Total + 1 } }

/-- The statement `atomic.AddUint64(&status.Finished, 1)`. -/
def Run.addFinished (r : Run) : Run :=
  { r with status := { r.status with Finished := r.status.Finished + 1 } }

/-- The statement `atomic.AddUint64(&status.Failed, 1)`. -/
def Run.addFailed (r : Run) : Run :=
  { r with status := { r.status with Failed := r.status.Failed + 1 } }

/-- The statement `status.LastError = msg`. -/
def Run.setLastError (r : Run) (msg : String) : Run :=
  { r with status := { r.status with LastError := msg } }

/-- The statement `status.Running = b`. -/
def Run.setRunning (r : Run) (b : Bool) : Run :=
  { r with status := { r.status with Running := b } }

/-- EnsureDir of `worker.go`, called by task `t` in attempt `a`. -/
def EnsureDir (w : World) (t a : Nat) (filePath : String) : GoError :=
  let dir := w.dir filePath
  if dir = "." ∨ dir = "/" then none
  else w.mkdirAll t a MkdirSite.ensureDir dir

/-- Client.Download of `minio.go`, called by task `t` in attempt `a`. -/
def Download (w : World) (t a : Nat) (key dest : String) : GoError :=
  match w.mkdirAll t a MkdirSite.download (w.dir dest) with
  | some err => some err
  | none => w.fGetObject t a key dest

/-- The page bound `const limit = 1000` of `Client.ListObjects`. -/
def limit : Nat := 1000

/-- The function `strings.HasSuffix`. -/
def hasSuffix (s suffix : String) : Bool := suffix.data.isSuffixOf s.data

/-- The `ObjectInfo` that `Client.ListObjects` appends for a listed element:
`isDir := strings.HasSuffix(obj.Key, "/")`. -/
def entryOf (obj : RawObject) : ObjectInfo :=
  { Key := obj.Key, Size := obj.Size, Mtime := obj.LastModified,
    IsDir := hasSuffix obj.Key "/" }

/-- The `for obj := range ...` loop of `Client.ListObjects`: stops at the first
element carrying an error, otherwise appends to `out` and remembers the key. -/
def listCollect : List RawObject → List ObjectInfo → String →
    Except String (List ObjectInfo × String)
  | [], out, lastKey => .ok (out, lastKey)
  | obj :: rest, out, _ =>
    match obj.Err with
    | some err => .error err
    | none =>
      listCollect rest (out ++ [entryOf obj]) obj.Key

/-- Client.ListObjects of `minio.go`, applied to what the listing channel yields. -/
def ListObjects (raw : List RawObject) : Except String (List ObjectInfo × String) :=
  match listCollect raw [] "" with
  | .error err => .error err
  | .ok (out, lastKey) =>
    if lastKey = "" then .ok (out, "")
    else if out.length < limit then .ok (out, "")
    else .ok (out, lastKey)

/-- How the retry loop of a fetch task was left. -/
inductive LoopExit where
  /-- The `return` after a successful `Download`. -/
  | returned
  /-- The loop condition became false; `dlErr` holds the last error (`nil` when the
  body never ran). -/
  | fellThrough (dlErr : GoError)
  deriving DecidableEq, Repr

/-- The loop `for attempt := 0; attempt <= MaxRetries; attempt++` of a fetch task
(lines 89-103), with `n` the number of iterations still allowed by the loop condition
(`MaxRetries + 1 - attempt`).  The back-off sleep takes time and nothing else. -/
def retryLoop (w : World) (t : Nat) (key loc : String) :
    Nat → Nat → GoError → Run → Run × LoopExit
  | 0, _, dlErr, r => (r, .fellThrough dlErr)
  | n + 1, attempt, _, r =>
    let r1 := r.log (.attempt t attempt)
    match EnsureDir w t attempt loc with
    | some err => retryLoop w t key loc n (attempt + 1) (some err) r1
    | none =>
      let dlErr := Download w t attempt key loc
      let r2 := r1.log (.download t attempt key loc dlErr)
      match dlErr with
      | none => (r2.addFinished, .returned)
      | some err => retryLoop w t key loc n (attempt + 1) (some err) r2

/-- The body of the goroutine `go func(o ObjectInfo)` (lines 68-108), run as task
number `t`.  The Boolean is `true` when the task panics: `dlErr.Error()` on a `nil`
error, which happens when the loop body never ran. -/
def fetchTask (w : World) (cfg : Config) (dest : String) (t : Nat) (o : ObjectInfo)
    (r : Run) : Run × Bool :=
  if w.ctxDone t then (r, false)
  else
    let key := o.Key
    let loc := w.join dest key
    if w.stat t loc = some o.Size then (r.addFinished, false)
    else
      match retryLoop w t key loc (cfg.MaxRetries + 1).toNat 0 none r with
      | (r1, .returned) => (r1, false)
      | (r1, .fellThrough dlErr) =>
        let r2 := r1.addFailed
        match dlErr with
        | none => (r2, true)
        | some msg => (r2.setLastError msg, false)

/-- The error of attempt `a` of task `t`: that of `EnsureDir` if it fails, else that
of `Download`. -/
def attemptError (w : World) (t a : Nat) (key loc : String) : GoError :=
  match EnsureDir w t a loc with
  | some err => some err
  | none => Download w t a key loc

/-- The statement `go func(o ObjectInfo) {...}(obj)`: the goroutine started is task
number `r.nTask`. -/
def Run.startTask (r : Run) (key : String) : Run :=
  { r with nTask := r.nTask + 1, trace := r.trace ++ [Event.dispatch r.nTask key] }

/-- The call `cli.ListObjects(prefix, marker)` has been made and returned a page: it
is listing call number `r.nList`. -/
def Run.listed (r : Run) (pfx marker : String) : Run :=
  { r with nList := r.nList + 1, trace := r.trace ++ [Event.listObjects pfx marker] }

/-- How a run of `Worker` without failed listing ends. -/
inductive Exit where
  /-- All prefixes were listed and `wg.Wait()` returned. -/
  | normal
  /-- A panic (negative channel size, or `dlErr.Error()` on `nil`): the process
  dies and `Worker` does not return. -/
  | panicked
  /-- The send `sem <- struct{}{}` can never complete (a channel without buffer
  and no receiver): `Worker` does not return. -/
  | blocked
  deriving DecidableEq, Repr

/-- The loop `for _, obj := range list` (lines 59-109).  The goroutine of each
non-directory entry is run to its end where it is started, so when the entry is
dispatched no semaphore slot is taken, and the send on `sem` completes exactly
when the channel has a buffer.  The result is `normal` when the loop ran to its
end. -/
def objectsLoop (w : World) (cfg : Config) (dest : String) :
    List ObjectInfo → Run → Run × Exit
  | [], r => (r, .normal)
  | obj :: rest, r =>
    if obj.IsDir then objectsLoop w cfg dest rest r
    else
      let r1 := r.addTotal
      if cfg.Concurrency = 0 then (r1, .blocked)
      else
        let t := r1.nTask
        match fetchTask w cfg dest t obj (r1.startTask obj.Key) with
        | (r3, true) => (r3, .panicked)
        | (r3, false) => objectsLoop w cfg dest rest r3

/-- The pagination loop `for { ... }` of one prefix (lines 51-115).  `fuel` bounds the
number of pages.  The result `none` means that the function gives no state for the
run: the bound was reached, or a `ListObjects` call failed.  After a failed call
`Worker` returns at once, without waiting for the goroutines it has started (lines
54-57), so the status at that return depends on how far they got; that exit is
described by the machine (`stepMain`), not by this function. -/
def pageLoop (w : World) (cfg : Config) (dest : String) (pfx : String) :
    Nat → String → Run → Option (Run × Exit)
  | 0, _, _ => none
  | fuel + 1, marker, r =>
    match ListObjects (w.listing r.nList pfx marker) with
    | .error _ => none
    | .ok (list, next) =>
      match objectsLoop w cfg dest list (r.listed pfx marker) with
      | (r2, .normal) =>
        if next = "" then some (r2, .normal)
        else pageLoop w cfg dest pfx fuel next r2
      | (r2, e) => some (r2, e)

/-- The loop `for _, prefix := range prefixes` (lines 49-116). -/
def prefixLoop (w : World) (cfg : Config) (dest : String) (fuel : Nat) :
    List String → Run → Option (Run × Exit)
  | [], r => some (r, .normal)
  | pfx :: rest, r =>
    match pageLoop w cfg dest pfx fuel "" r with
    | none => none
    | some (r1, .normal) => prefixLoop w cfg dest fuel rest r1
    | some (r1, e) => some (r1, e)

/-- The state right after `status.Running = true` (line 42). -/
def WorkerEntry (status : JobStatus) : Run :=
  Run.setRunning { status := status, nList := 0, nTask := 0, trace := [] } true

/-- Worker of `worker.go`, for the runs without failed listing.  `fuel` bounds the
pages listed per prefix; `none` as for `pageLoop`.  On the exit `normal` the function
returns, after `wg.Wait()`, and the deferred `status.Running = false` has run; on
`panicked` and `blocked` it does not return.  The deferred call also runs when `make`
panics on a negative size, which happens in the goroutine of `Worker` itself; it
does not run when a fetch goroutine panics. -/
def Worker (fuel : Nat) (w : World) (cfg : Config) (prefixes : List String)
    (dest : String) (status : JobStatus) : Option (Run × Exit) :=
  let r0 := WorkerEntry status
  if cfg.Concurrency < 0 then some (r0.setRunning false, .panicked)
  else
    match prefixLoop w cfg dest fuel prefixes r0 with
    | none => none
    | some (r, .normal) => some (r.setRunning false, .normal)
    | some (r, e) => some (r, e)

/-- A piece of trace without any `ListObjects` call. -/
def NoList (ext : List Event) : Prop := ∀ ev ∈ ext, ev.isList = false

/-- The zero value of `JobStatus`, as in a fresh `job.Job`. -/
def zeroStatus : JobStatus :=
  { Total := 0, Finished := 0, Failed := 0, Running := false, LastError := "" }

/-- Number of entries of a page that are not directory placeholders. -/
def nonDirs (list : List ObjectInfo) : Nat := list.countP (fun o => !o.IsDir)

/-- Number of non-directory entries over a sequence of pages. -/
def nonDirsPages (ps : List (List ObjectInfo × String)) : Nat :=
  (ps.map (fun p => nonDirs p.1)).sum

/-- Number of non-directory entries over the pages of a list of prefixes. -/
def nonDirsAll (pss : List (List (List ObjectInfo × String))) : Nat :=
  (pss.map nonDirsPages).sum

/-- A description of what the store answers for one prefix: starting with listing
call number `n` and marker `marker`, the successive `ListObjects` calls return the
pages `ps` (entries and next marker), each call made with the marker the call before
returned; every page but the last comes with a non-empty next marker and the last
one with the empty marker. -/
def PageChain (w : World) (pfx : String) :
    Nat → String → List (List ObjectInfo × String) → Prop
  | _, _, [] => False
  | n, marker, p :: rest =>
    ListObjects (w.listing n pfx marker) = .ok p ∧
    match rest with
    | [] => p.2 = ""
    | _ :: _ => p.2 ≠ "" ∧ PageChain w pfx (n + 1) p.2 rest

/-- A description of what the store answers for a list of prefixes, listed one after
the other from listing call number `n` on: a `PageChain` for each. -/
def Listing (w : World) :
    Nat → List String → List (List (List ObjectInfo × String)) → Prop
  | _, [], [] => True
  | n, pfx :: rest, ps :: pss =>
    PageChain w pfx n "" ps ∧ Listing w (n + ps.length) rest pss
  | _, _, _ => False

/-- Every non-directory entry of the page exists at `filepath.Join dest key` with the
listed size, whichever task looks. -/
def AllPresent (w : World) (dest : String) (list : List ObjectInfo) : Prop :=
  ∀ o ∈ list, o.IsDir = false → ∀ t, w.stat t (w.join dest o.Key) = some o.Size

/-! ### Concrete worlds, on which the theorems are instantiated -/

/-- A configuration as `config.Load` leaves it by default: 16 slots, 3 retries. -/
def defaultConfig : Config := { Concurrency := 16, MaxRetries := 3 }

/-- The object `a/x`, 10 bytes. -/
def rawX : RawObject := { Err := none, Key := "a/x", Size := 10, LastModified := "t0" }

/-- The object `a/y`, 20 bytes. -/
def rawY : RawObject := { Err := none, Key := "a/y", Size := 20, LastModified := "t1" }

/-- The object `b/z`, 30 bytes. -/
def rawZ : RawObject := { Err := none, Key := "b/z", Size := 30, LastModified := "t2" }

/-- A store with `a/x`, `a/y` under `a/` and `b/z` under `b/`; locally only
`data/a/x` exists, with 10 bytes; nothing is cancelled; directories can be made;
the transfer of `b/z` always fails, that of `a/y` fails on the first `flaky`
attempts, and on all of them if `broken`. -/
def scenarioWorld (flaky : Nat) (broken : Bool) : World where
  listing := fun _ pfx marker =>
    if marker = "" then
      if pfx = "a/" then [rawX, rawY] else if pfx = "b/" then [rawZ] else []
    else []
  ctxDone := fun _ => false
  stat := fun _ path => if path = "data/a/x" then some 10 else none
  mkdirAll := fun _ _ _ _ => none
  fGetObject := fun _ a key _ =>
    if key = "b/z" then some "boom"
    else if broken then some "reset"
    else if a < flaky then some "timeout" else none
  dir := fun _ => "data/a"
  join := fun d key => d ++ "/" ++ key

/-- The same store as `scenarioWorld` after a complete download: the three objects
exist locally with their sizes, and every transfer would fail. -/
def mirroredWorld : World where
  listing := fun _ pfx marker =>
    if marker = "" then
      if pfx = "a/" then [rawX, rawY] else if pfx = "b/" then [rawZ] else []
    else []
  ctxDone := fun _ => false
  stat := fun _ path =>
    if path = "data/a/x" then some 10
    else if path = "data/a/y" then some 20
    else if path = "data/b/z" then some 30 else none
  mkdirAll := fun _ _ _ _ => none
  fGetObject := fun _ _ _ _ => some "unreachable"
  dir := fun _ => "data/a"
  join := fun d key => d ++ "/" ++ key

/-- The `i`-th of a thousand objects under `p/`: key `p/k`, `p/kk`, ... -/
def rawK (i : Nat) : RawObject :=
  { Err := none, Key := String.mk ('p' :: '/' :: List.replicate (i + 1) 'k'),
    Size := 1, LastModified := "t" }

/-- The thousand objects `rawK 0`, ..., `rawK 999`. -/
def thousand : List RawObject := (List.range 999).map rawK ++ [rawK 999]

/-- A store that holds exactly the thousand objects of `thousand` under `p/`: the
listing from the start yields them all, the listing after a marker yields nothing. -/
def thousandWorld : World where
  listing := fun _ _ marker => if marker = "" then thousand else []
  ctxDone := fun _ => false
  stat := fun _ _ => none
  mkdirAll := fun _ _ _ _ => none
  fGetObject := fun _ _ _ _ => none
  dir := fun _ => "data/p"
  join := fun d key => d ++ "/" ++ key

/-! ### `Worker` as an interleaving machine

The goroutine of `Worker` and the fetch goroutines it starts take their steps one at a
time, in any order.  An action names the goroutine that moves and carries the answer
the outside world gives if that step asks for one. -/

/-- Where a fetch goroutine stands (lines 68-108). -/
inductive TaskPc where
  /-- Started, before the `select` on `ctx.Done()`. -/
  | started
  /-- Past the `select`, before `os.Stat`. -/
  | checked
  /-- At the condition of the retry loop, with the loop variables. -/
  | retrying (attempt : Nat) (dlErr : GoError)
  /-- After `atomic.AddUint64(&status.Failed, 1)`, before `status.LastError = ...`. -/
  | failing (dlErr : GoError)
  /-- The body has returned; the deferred `<-sem; wg.Done()` is still to run. -/
  | exiting
  /-- After `<-sem`, before `wg.Done()`. -/
  | released
  /-- The goroutine has ended. -/
  | done
  deriving DecidableEq, Repr

/-- What is left of the loops of `Worker` around the entry being handled: the rest
of the page, its next marker, the prefix, the prefixes still to come. -/
structure Cursor where
  list : List ObjectInfo
  next : String
  pfx : String
  rest : List String
  deriving DecidableEq, Repr

/-- Where the goroutine of `Worker` stands. -/
inductive MainPc where
  /-- Called, before `status.Running = true`. -/
  | entry (prefixes : List String)
  /-- After `status.Running = true`, about to `make` the channel `sem` (line 47). -/
  | making (prefixes : List String)
  /-- About to call `cli.ListObjects(prefix, marker)` (line 53). -/
  | listing (pfx marker : String) (rest : List String)
  /-- After `status.LastError = err.Error()` (line 55), about to `return` (line 56). -/
  | erred
  /-- At the head of `for _, obj := range list` (line 59). -/
  | ranging (c : Cursor)
  /-- After `Total` was incremented and `wg.Add(1)`, about to send on `sem`. -/
  | counted (o : ObjectInfo) (c : Cursor)
  /-- After the send on `sem`, about to start the goroutine. -/
  | acquired (o : ObjectInfo) (c : Cursor)
  /-- In `wg.Wait()` (line 118). -/
  | waiting
  /-- Returned; the deferred `status.Running = false` has run. -/
  | returned
  deriving DecidableEq, Repr

/-- The state of a run: the shared status record, the number of elements in the
channel `sem`, the counter of the wait group, the goroutine of `Worker`, the fetch
goroutines in the order they were started, whether a panic ended the process, and
the number of `ListObjects` calls made so far. -/
structure Machine where
  status : JobStatus
  sem : Nat
  wg : Nat
  main : MainPc
  tasks : List (ObjectInfo × TaskPc)
  crashed : Bool
  lists : Nat
  deriving DecidableEq, Repr

/-- The answers of the outside world to a step of a fetch goroutine. -/
structure TaskAnswer where
  /-- Whether `ctx.Done()` is ready. -/
  ctxDone : Bool
  /-- The size reported by `os.Stat(local)`, when it returns no error. -/
  stat : Option Int
  /-- The result of `EnsureDir(local)`. -/
  ensureDir : GoError
  /-- The result of `cli.Download(key, local)`. -/
  download : GoError
  deriving DecidableEq, Repr

/-- One step: of the goroutine of `Worker` (`raw` is what the listing channel yields,
if the step is a `ListObjects` call), or of fetch goroutine number `i`. -/
inductive Action where
  | main (raw : List RawObject)
  | task (i : Nat) (ans : TaskAnswer)
  deriving DecidableEq, Repr

/-- The state in which `Worker` is called. -/
def Machine.init (prefixes : List String) (status : JobStatus) : Machine :=
  { status := status, sem := 0, wg := 0, main := .entry prefixes, tasks := [],
    crashed := false, lists := 0 }

/-- The head of `for _, prefix := range prefixes`: the next prefix with `marker`
empty, or `wg.Wait()` after the last. -/
def nextPrefix : List String → MainPc
  | [] => .waiting
  | pfx :: rest => .listing pfx "" rest

/-- A step of the goroutine of `Worker`; `none` when it cannot move (blocked on the
send, in `wg.Wait()`, or returned). -/
def stepMain (cfg : Config) (s : Machine) (raw : List RawObject) : Option Machine :=
  match s.main with
  | .entry prefixes =>
    -- `status.Running = true` (line 42)
    some { s with status := { s.status with Running := true }, main := .making prefixes }
  | .making prefixes =>
    -- `make(chan struct{}, Concurrency)`: a negative size panics, the deferred reset
    -- of `Running` runs and the process dies
    if cfg.Concurrency < 0 then
      some { s with status := { s.status with Running := false }, crashed := true }
    else some { s with main := nextPrefix prefixes }
  | .listing pfx _ rest =>
    match ListObjects raw with
    | .error err =>
      -- `status.LastError = err.Error()` (line 55)
      some { s with status := { s.status with LastError := err },
                    lists := s.lists + 1, main := .erred }
    | .ok (list, next) =>
      some { s with lists := s.lists + 1,
                    main := .ranging { list := list, next := next, pfx := pfx, rest := rest } }
  | .erred =>
    -- `return` (line 56) with the deferred `status.Running = false`; no `wg.Wait()`
    some { s with status := { s.status with Running := false }, main := .returned }
  | .ranging c =>
    match c.list with
    | [] =>
      if c.next = "" then some { s with main := nextPrefix c.rest }
      else some { s with main := .listing c.pfx c.next c.rest }
    | o :: list =>
      if o.IsDir then some { s with main := .ranging { c with list := list } }
      else
        some { s with status := { s.status with Total := s.status.Total + 1 },
                      wg := s.wg + 1,
                      main := .counted o { c with list := list } }
  | .counted o c =>
    -- `sem <- struct{}{}` completes only while the buffer has room
    if (s.sem : Int) < cfg.Concurrency then some { s with sem := s.sem + 1, main := .acquired o c }
    else none
  | .acquired o c =>
    some { s with tasks := s.tasks ++ [(o, TaskPc.started)], main := .ranging c }
  | .waiting =>
    if s.wg = 0 then
      some { s with status := { s.status with Running := false }, main := .returned }
    else none
  | .returned => none

/-- Put fetch goroutine `i` at `pc`. -/
def Machine.setTask (s : Machine) (i : Nat) (o : ObjectInfo) (pc : TaskPc) : Machine :=
  { s with tasks := s.tasks.set i (o, pc) }

/-- A step of fetch goroutine `i`; `none` when there is no such goroutine or it has
ended.  One iteration of the retry loop is one step. -/
def stepTask (cfg : Config) (s : Machine) (i : Nat) (ans : TaskAnswer) : Option Machine :=
  match s.tasks[i]? with
  | none => none
  | some (o, pc) =>
    match pc with
    | .started =>
      if ans.ctxDone then some (s.setTask i o .exiting)
      else some (s.setTask i o .checked)
    | .checked =>
      if ans.stat = some o.Size then
        some ({ s with status := { s.status with Finished := s.status.Finished + 1 } }.setTask
          i o .exiting)
      else some (s.setTask i o (.retrying 0 none))
    | .retrying attempt dlErr =>
      if (attempt : Int) ≤ cfg.MaxRetries then
        match ans.ensureDir with
        | some err => some (s.setTask i o (.retrying (attempt + 1) (some err)))
        | none =>
          match ans.download with
          | none =>
            some ({ s with status := { s.status with Finished := s.status.Finished + 1 } }.setTask
              i o .exiting)
          | some err => some (s.setTask i o (.retrying (attempt + 1) (some err)))
      else
        some ({ s with status := { s.status with Failed := s.status.Failed + 1 } }.setTask
          i o (.failing dlErr))
    | .failing dlErr =>
      match dlErr with
      | none => some { s with crashed := true }
      | some msg =>
        some ({ s with status := { s.status with LastError := msg } }.setTask i o .exiting)
    | .exiting =>
      -- `<-sem` needs an element in the channel
      if 0 < s.sem then some ({ s with sem := s.sem - 1 }.setTask i o .released) else none
    | .released =>
      -- `wg.Done()` panics on a negative counter
      if 0 < s.wg then some ({ s with wg := s.wg - 1 }.setTask i o .done)
      else some { s with crashed := true }
    | .done => none

/-- One step of the machine; after a panic nothing moves. -/
def step (cfg : Config) (s : Machine) : Action → Option Machine
  | .main raw => if s.crashed then none else stepMain cfg s raw
  | .task i ans => if s.crashed then none else stepTask cfg s i ans

/-- Run a sequence of actions; `none` when one of them is not possible. -/
def exec (cfg : Config) : List Action → Machine → Option Machine
  | [], s => some s
  | a :: rest, s =>
    match step cfg s a with
    | none => none
    | some s1 => exec cfg rest s1

/-- Whether a fetch goroutine holds a slot of the semaphore: started and not yet past
its `<-sem`. -/
def TaskPc.inFlight : TaskPc → Bool
  | .released => false
  | .done => false
  | _ => true

/-- Whether a fetch goroutine may still increment `Finished` or `Failed`. -/
def TaskPc.pending : TaskPc → Bool
  | .started => true
  | .checked => true
  | .retrying _ _ => true
  | _ => false

/-- Number of fetch tasks in flight. -/
def Machine.inFlight (s : Machine) : Nat := s.tasks.countP (fun t => t.2.inFlight)

/-- Number of fetch tasks that may still increment `Finished` or `Failed`. -/
def Machine.pending (s : Machine) : Nat := s.tasks.countP (fun t => t.2.pending)

/-- One when the goroutine of `Worker` has counted an entry in `Total` but not yet
started its goroutine, else zero. -/
def MainPc.counting : MainPc → Nat
  | .counted _ _ => 1
  | .acquired _ _ => 1
  | _ => 0

/-- One when the goroutine of `Worker` has sent on `sem` but not yet started the
goroutine, else zero. -/
def MainPc.holding : MainPc → Nat
  | .acquired _ _ => 1
  | _ => 0

/-- The semaphore invariant: the elements in the channel are the slots held by the
fetch goroutines in flight and by the goroutine of `Worker` between its send and
the `go` statement, and there are never more of them than `Concurrency`. -/
def SemInv (cfg : Config) (s : Machine) : Prop :=
  s.sem = s.inFlight + s.main.holding ∧ (s.sem = 0 ∨ (s.sem : Int) ≤ cfg.Concurrency)

/-- The invariant of the flag `Running`: it is false once `Worker` has returned, and
true from the first statement of `Worker` until it returns, as long as no panic has
ended the process. -/
def RunningInv (s : Machine) : Prop :=
  (s.main = .returned → s.status.Running = false) ∧
  (s.crashed = false → (∀ prefixes, s.main ≠ .entry prefixes) → s.main ≠ .returned →
    s.status.Running = true)

/-- The goroutine of `Worker` has left its loops through the listing error: it is
about to return or has returned, and `Running` is false once it has. -/
def Left (s : Machine) : Prop :=
  (s.main = .erred ∨ s.main = .returned) ∧ (s.main = .returned → s.status.Running = false)

/-- The counter invariant: every entry counted in `Total` was counted at most once in
`Finished` or `Failed`, and not at all while its goroutine is still to be started or
still before its increment. -/
def CountInv (s : Machine) : Prop :=
  s.status.Finished + s.status.Failed + s.pending + s.main.counting ≤ s.status.Total

/-! ### A concrete interleaving -/

/-- Two slots, no retry. -/
def twoSlots : Config := { Concurrency := 2, MaxRetries := 0 }

/-- The world answers a fetch step with: not cancelled, `os.Stat` finds `size`,
`EnsureDir` succeeds, `Download` returns `dl`. -/
def answer (size : Option Int) (dl : GoError) : TaskAnswer :=
  { ctxDone := false, stat := size, ensureDir := none, download := dl }

/-- A run over the prefix `a/` listing `a/x` and `a/y`: both goroutines are started,
then task 0 finds its file present and task 1 fails its only attempt. -/
def demoActions : List Action :=
  [ .main [],              -- Running = true
    .main [],              -- make(chan struct{}, 2)
    .main [rawX, rawY],    -- ListObjects("a/", "")
    .main [],              -- a/x: Total = 1
    .main [],              -- sem <-
    .main [],              -- go, task 0
    .main [],              -- a/y: Total = 2
    .main [],              -- sem <-
    .main [],              -- go, task 1
    .task 0 (answer (some 10) none),     -- not cancelled
    .task 0 (answer (some 10) none),     -- present: Finished = 1
    .task 1 (answer none (some "boom")), -- not cancelled
    .task 1 (answer none (some "boom")), -- absent
    .task 1 (answer none (some "boom")), -- attempt 0 fails
    .task 1 (answer none (some "boom")) ] -- loop left: Failed = 1

/-- The state reached by `demoActions`. -/
def demoState : Machine :=
  { status := { Total := 2, Finished := 1, Failed := 1, Running := true, LastError := "" },
    sem := 2,
    wg := 2,
    main := .ranging { list := [], next := "", pfx := "a/", rest := [] },
    tasks := [(entryOf rawX, .exiting), (entryOf rawY, .failing (some "boom"))],
    crashed := false,
    lists := 1 }

/-- The rest of the run after `demoActions`: task 1 records its error, both tasks
release their slot and end, `Worker` leaves its loops, waits and returns. -/
def demoRest : List Action :=
  [ .task 1 (answer none none),  -- LastError = "boom"
    .task 0 (answer none none),  -- <-sem
    .task 0 (answer none none),  -- wg.Done()
    .task 1 (answer none none),  -- <-sem
    .task 1 (answer none none),  -- wg.Done()
    .main [],                    -- end of page, no next marker, no prefix left
    .main [] ]                   -- wg.Wait() returns; Running = false

/-- The state in which the demo run ends. -/
def demoFinal : Machine :=
  { status := { Total := 2, Finished := 1, Failed := 1, Running := false, LastError := "boom" },
    sem := 0,
    wg := 0,
    main := .returned,
    tasks := [(entryOf rawX, .done), (entryOf rawY, .done)],
    crashed := false,
    lists := 1 }

/-- What the listing channel yields when the listing fails with `503`. -/
def failingListing : List RawObject :=
  [{ Err := some "503", Key := "", Size := 0, LastModified := "" }]

/-- A run over the prefixes `a/` and `b/` up to the listing of `b/`: `a/` lists
`a/x`, its goroutine is started and has passed its cancellation check. -/
def erringStart : List Action :=
  [ .main [],              -- Running = true
    .main [],              -- make(chan struct{}, 2)
    .main [rawX],          -- ListObjects("a/", "")
    .main [],              -- a/x: Total = 1
    .main [],              -- sem <-
    .main [],              -- go, task 0
    .main [],              -- end of page, no next marker: prefix b/
    .task 0 (answer none (some "boom")) ] -- not cancelled

/-- The state reached by `erringStart`: `Worker` is about to list `b/`, task 0 is
in flight. -/
def erringBefore : Machine :=
  { status := { Total := 1, Finished := 0, Failed := 0, Running := true, LastError := "" },
    sem := 1,
    wg := 1,
    main := .listing "b/" "" [],
    tasks := [(entryOf rawX, .checked)],
    crashed := false,
    lists := 1 }

/-- The run after the failing listing of `b/` (the action `.main failingListing`):
`Worker` returns while task 0 is still in flight; the task then fails its only
attempt and records its own error. -/
def erringRest : List Action :=
  [ .task 0 (answer none (some "boom")), -- absent
    .main [],                            -- return; Running = false
    .task 0 (answer none (some "boom")), -- attempt 0 fails
    .task 0 (answer none (some "boom")), -- loop left: Failed = 1
    .task 0 (answer none (some "boom")) ] -- LastError = "boom"

/-- The state reached by `erringStart`, the failing listing and `erringRest`. -/
def erringFinal : Machine :=
  { status := { Total := 1, Finished := 0, Failed := 1, Running := false, LastError := "boom" },
    sem := 1,
    wg := 1,
    main := .returned,
    tasks := [(entryOf rawX, .exiting)],
    crashed := false,
    lists := 2 }

/-! ### The functional `Worker` as a schedule of the machine -/

/-- A machine state in which no fetch goroutine is running: the semaphore is empty and
the wait group is at zero. -/
def Machine.quiet (st : JobStatus) (main : MainPc) (ended : List (ObjectInfo × TaskPc))
    (lists : Nat) : Machine :=
  { status := st, sem := 0, wg := 0, main := main, tasks := ended, crashed := false,
    lists := lists }

/-- A machine state in which exactly the last fetch goroutine started is running, at
`pc`. -/
def Machine.atTask (st : JobStatus) (main : MainPc) (ended : List (ObjectInfo × TaskPc))
    (lists : Nat) (o : ObjectInfo) (pc : TaskPc) : Machine :=
  { status := st, sem := 1, wg := 1, main := main, tasks := ended ++ [(o, pc)],
    crashed := false, lists := lists }

/-- The answers of world `w` to task `t` in attempt `a` for key `key` and path `loc`. -/
def answerOf (w : World) (t a : Nat) (key loc : String) : TaskAnswer :=
  { ctxDone := w.ctxDone t, stat := w.stat t loc,
    ensureDir := EnsureDir w t a loc, download := Download w t a key loc }

end downloader

/-! ### The clock, `context` and the job registry -/

/-- A reading of the wall clock, `time.Now()`, in local civil time. -/
structure Time where
  year : Nat
  month : Nat
  day : Nat
  hour : Nat
  minute : Nat
  second : Nat
  nanosecond : Nat
  deriving DecidableEq, Repr

/-- The decimal digit of the units of `n`. -/
def digit (n : Nat) : Char := Char.ofNat (48 + n % 10)

/-- Two digits, zero padded. -/
def pad2 (n : Nat) : List Char := [digit (n / 10), digit n]

/-- The result of `t.Format("20060102150405.000")` for a year below 10000: year,
month, day, hour, minute and second in digits, a dot, and the milliseconds of the
second in three digits (the fraction is cut, not rounded). -/
def Time.format (t : Time) : String :=
  String.mk (pad2 (t.year / 100) ++ pad2 t.year ++ pad2 t.month ++ pad2 t.day ++
    pad2 t.hour ++ pad2 t.minute ++ pad2 t.second ++ ['.'] ++
    [digit (t.nanosecond / 100000000), digit (t.nanosecond / 10000000),
     digit (t.nanosecond / 1000000)])

/-- A `context.Context` as `handler.Start` meets it: the context of the request, or
one derived from a parent by `context.WithCancel`, whose `CancelFunc` has number
`cancel`. -/
inductive Ctx where
  | request
  | withCancel (parent : Ctx) (cancel : Nat)
  deriving DecidableEq, Repr

/-- What has been signalled at some instant: whether the context of the request is
done, and which `CancelFunc`s have been called. -/
structure Signals where
  requestDone : Bool
  cancelCalled : Nat → Bool

/-- Whether `ctx.Done()` is ready: a derived context is done iff its own cancel was
called or its parent is done. -/
def Ctx.done (σ : Signals) : Ctx → Bool
  | .request => σ.requestDone
  | .withCancel parent cancel => σ.cancelCalled cancel || parent.done σ

namespace job

open downloader

/-- Job of `store.go`; the `CancelFunc` is named by its number. -/
structure Job where
  Status : JobStatus
  Cancel : Nat
  deriving DecidableEq, Repr

/-- The package variable `store`, a `sync.Map` from identifier to job. -/
abbrev Registry := List (String × Job)

/-- The method `sync.Map.Store`: sets the value for the key, replacing the one there. -/
def Registry.store (m : Registry) (id : String) (j : Job) : Registry :=
  (id, j) :: m.filter (fun e => e.1 ≠ id)

/-- New of `store.go`, called when the clock reads `now`: returns the identifier and
the registry after the call. -/
def New (now : Time) (m : Registry) (j : Job) : String × Registry :=
  let id := now.format
  (id, m.store id j)

/-- Get of `store.go`. -/
def Get (m : Registry) (id : String) : Option Job :=
  (m.find? (fun e => e.1 = id)).map (fun e => e.2)

/-- Delete of `store.go`. -/
def Delete (m : Registry) (id : String) : Registry :=
  m.filter (fun e => e.1 ≠ id)

/-- A clock reading: 7 March 2024, 09:05:01.123000000. -/
def readingA : Time :=
  { year := 2024, month := 3, day := 7, hour := 9, minute := 5, second := 1,
    nanosecond := 123000000 }

/-- A later clock reading in the same millisecond: 09:05:01.123999999. -/
def readingB : Time :=
  { year := 2024, month := 3, day := 7, hour := 9, minute := 5, second := 1,
    nanosecond := 123999999 }

/-- The job of a first request. -/
def jobA : Job := { Status := zeroStatus, Cancel := 1 }

/-- The job of a second request. -/
def jobB : Job := { Status := zeroStatus, Cancel := 2 }

end job

namespace handler

open downloader job

/-- The request body of `POST /download` after decoding. -/
structure startReq where
  Prefixes : List String
  Bucket : String
  Dest : String
  deriving DecidableEq, Repr

/-- The call `go downloader.Worker(ctx, h.dl, req.Prefixes, dest, &j.Status)` made
by `Start`. -/
structure Launch where
  ctx : Ctx
  prefixes : List String
  dest : String
  jobId : String
  deriving DecidableEq, Repr

/-- What `Start` answers and does. -/
structure StartResult where
  code : Nat
  body : String
  registry : Registry
  launch : Option Launch
  deriving DecidableEq, Repr

/-- Handler.Start of `handler.go`.  `cfgDest` is `h.cfg.Dest`, `body` the decoded
request (`none` when decoding fails), `cancel` the number of the `CancelFunc` that
`context.WithCancel` returns, `now` the clock reading inside `job.New`. -/
def Start (cfgDest : String) (m : Registry) (now : Time) (cancel : Nat)
    (body : Option startReq) : StartResult :=
  match body with
  | none => { code := 400, body := "invalid json", registry := m, launch := none }
  | some req =>
    if req.Prefixes.length = 0 then
      { code := 400, body := "prefixes must not be empty", registry := m, launch := none }
    else
      let dest := if req.Dest ≠ "" then req.Dest else cfgDest
      let ctx := Ctx.withCancel Ctx.request cancel
      let j : Job := { Status := zeroStatus, Cancel := cancel }
      let res := New now m j
      { code := 202, body := res.1, registry := res.2,
        launch := some { ctx := ctx, prefixes := req.Prefixes, dest := dest, jobId := res.1 } }

/-- The request context is done and no `CancelFunc` was ever called. -/
def requestGone : Signals := { requestDone := true, cancelCalled := fun _ => false }

/-- A world as the fetch tasks of a job see it under `requestGone` when their
context is `ctx`; everything else would let a fetch succeed. -/
def goneWorld (ctx : Ctx) : World where
  listing := fun _ _ _ => []
  ctxDone := fun _ => ctx.done requestGone
  stat := fun _ _ => none
  mkdirAll := fun _ _ _ _ => none
  fGetObject := fun _ _ _ _ => none
  dir := fun _ => "data/a"
  join := fun d key => d ++ "/" ++ key

end handler

end S3Download

/-! ## Theorems -/

namespace S3Download.downloader

open config

/-- The `Download` calls of a concatenation. -/
@[simp] theorem downloadCalls_append (a b : List Event) :
    downloadCalls (a ++ b) = downloadCalls a + downloadCalls b := by
  simp [downloadCalls]

/-- The attempts of a concatenation. -/
@[simp] theorem attempts_append (a b : List Event) :
    attempts (a ++ b) = attempts a + attempts b := by
  simp [attempts]

/-- The listing calls of a concatenation. -/
@[simp] theorem listCalls_append (a b : List Event) :
    listCalls (a ++ b) = listCalls a + listCalls b := by
  simp [listCalls]

/-- What the retry loop does when `Download` first succeeds in iteration `a + k`:
it returns from inside the loop after `k + 1` iterations and `k + 1` calls of
`Download`, with `Finished` one higher and nothing else of the status touched. -/
theorem retryLoop_success (w : World) (t : Nat) (key loc : String) :
    ∀ (k n a : Nat) (e : GoError) (r : Run), k < n →
      (∀ i ≤ k, EnsureDir w t (a + i) loc = none) →
      (∀ i < k, Download w t (a + i) key loc ≠ none) →
      Download w t (a + k) key loc = none →
      ∃ r1, retryLoop w t key loc n a e r = (r1, LoopExit.returned) ∧
        r1.status = { r.status with Finished := r.status.Finished + 1 } ∧
        downloadCalls r1.trace = downloadCalls r.trace + (k + 1) ∧
        attempts r1.trace = attempts r.trace + (k + 1) ∧
        r1.nList = r.nList ∧ r1.nTask = r.nTask := by
  intro k
  induction k with
  | zero =>
    intro n a e r hn hdir _ hok
    obtain ⟨m, rfl⟩ : ∃ m, n = m + 1 := ⟨n - 1, by omega⟩
    have h0 := hdir 0 (le_refl 0)
    simp only [Nat.add_zero] at h0 hok
    refine ⟨((r.log (.attempt t a)).log (.download t a key loc none)).addFinished, ?_, ?_⟩
    · simp [retryLoop, h0, hok]
    · simp [Run.addFinished, Run.log, downloadCalls, attempts, Event.isDownload,
        Event.isAttempt]
  | succ k ih =>
    intro n a e r hn hdir hfail hok
    obtain ⟨m, rfl⟩ : ∃ m, n = m + 1 := ⟨n - 1, by omega⟩
    have h0 := hdir 0 (Nat.zero_le _)
    have hf0 := hfail 0 (Nat.succ_pos _)
    simp only [Nat.add_zero] at h0 hf0
    obtain ⟨err, herr⟩ : ∃ err, Download w t a key loc = some err := by
      cases h : Download w t a key loc with
      | none => exact absurd h hf0
      | some err => exact ⟨err, rfl⟩
    obtain ⟨r1, hrun, hst, hdl, hat, hl, ht⟩ :=
      ih m (a + 1) (some err)
        ((r.log (.attempt t a)).log (.download t a key loc (some err)))
        (by omega)
        (fun i hi => by have := hdir (i + 1) (by omega); rwa [show a + (i + 1) = a + 1 + i by omega] at this)
        (fun i hi => by have := hfail (i + 1) (by omega); rwa [show a + (i + 1) = a + 1 + i by omega] at this)
        (by rwa [show a + (k + 1) = a + 1 + k by omega] at hok)
    refine ⟨r1, ?_, ?_, ?_, ?_, ?_, ?_⟩
    · simp [retryLoop, h0, herr, hrun]
    · simpa [Run.log] using hst
    · rw [hdl]; simp [Run.log, downloadCalls, Event.isDownload]; omega
    · rw [hat]; simp [Run.log, attempts, Event.isAttempt]; omega
    · simpa [Run.log] using hl
    · simpa [Run.log] using ht

/-- What the retry loop does when each of its `n` iterations fails: it falls through
after `n` iterations with the error of the last one, the status untouched. -/
theorem retryLoop_allFail (w : World) (t : Nat) (key loc : String) :
    ∀ (n a : Nat) (e : GoError) (r : Run),
      (∀ i < n, attemptError w t (a + i) key loc ≠ none) →
      ∃ r1 d, retryLoop w t key loc n a e r = (r1, LoopExit.fellThrough d) ∧
        (n = 0 → d = e) ∧
        (0 < n → d = attemptError w t (a + n - 1) key loc) ∧
        r1.status = r.status ∧
        attempts r1.trace = attempts r.trace + n ∧
        downloadCalls r1.trace ≤ downloadCalls r.trace + n ∧
        r1.nList = r.nList ∧ r1.nTask = r.nTask := by
  intro n
  induction n with
  | zero => intro a e r _; exact ⟨r, e, by simp [retryLoop]⟩
  | succ n ih =>
    intro a e r hfail
    have hf0 := hfail 0 (Nat.succ_pos _)
    simp only [Nat.add_zero] at hf0
    have hrest : ∀ i < n, attemptError w t (a + 1 + i) key loc ≠ none := fun i hi => by
      have := hfail (i + 1) (by omega); rwa [show a + (i + 1) = a + 1 + i by omega] at this
    have hlast : ∀ (err : String) (d : GoError), attemptError w t a key loc = some err →
        (n = 0 → d = some err) → (0 < n → d = attemptError w t (a + 1 + n - 1) key loc) →
        d = attemptError w t (a + (n + 1) - 1) key loc := by
      intro err d hae h0 hpos
      rcases Nat.eq_zero_or_pos n with hn | hn
      · subst hn; rw [h0 rfl, ← hae]; rfl
      · rw [hpos hn, show a + 1 + n - 1 = a + (n + 1) - 1 by omega]
    cases hd : EnsureDir w t a loc with
    | some err =>
      obtain ⟨r1, d, hrun, hd0, hdpos, hst, hat, hdl, hl, ht⟩ :=
        ih (a + 1) (some err) (r.log (.attempt t a)) hrest
      have hae : attemptError w t a key loc = some err := by simp [attemptError, hd]
      refine ⟨r1, d, ?_, by omega, fun _ => hlast err d hae hd0 hdpos, ?_, ?_, ?_, ?_, ?_⟩
      · simp only [retryLoop, hd, hrun]
      · simpa [Run.log] using hst
      · rw [hat]; simp [Run.log, attempts, Event.isAttempt]; omega
      · refine le_trans hdl ?_; simp [Run.log, downloadCalls, Event.isAttempt, Event.isDownload]
      · simpa [Run.log] using hl
      · simpa [Run.log] using ht
    | none =>
      have hae : attemptError w t a key loc = Download w t a key loc := by
        simp [attemptError, hd]
      obtain ⟨err, herr⟩ : ∃ err, Download w t a key loc = some err := by
        cases h : Download w t a key loc with
        | none => rw [hae] at hf0; exact absurd h hf0
        | some err => exact ⟨err, rfl⟩
      obtain ⟨r1, d, hrun, hd0, hdpos, hst, hat, hdl, hl, ht⟩ :=
        ih (a + 1) (some err)
          ((r.log (.attempt t a)).log (.download t a key loc (some err))) hrest
      refine ⟨r1, d, ?_, by omega, fun _ => hlast err d (hae.trans herr) hd0 hdpos,
        ?_, ?_, ?_, ?_, ?_⟩
      · simp only [retryLoop, hd, herr, hrun]
      · simpa [Run.log] using hst
      · rw [hat]; simp [Run.log, attempts, Event.isAttempt]; omega
      · refine le_trans hdl ?_
        simp [Run.log, downloadCalls, Event.isAttempt, Event.isDownload]; omega
      · simpa [Run.log] using hl
      · simpa [Run.log] using ht

/-- The empty trace has no listing call. -/
theorem NoList.ofNil : NoList [] := by simp [NoList]

/-- Two pieces without listing call make one. -/
theorem NoList.concat {a b : List Event} (ha : NoList a) (hb : NoList b) :
    NoList (a ++ b) := by
  intro ev hev
  rcases List.mem_append.1 hev with h | h
  · exact ha ev h
  · exact hb ev h

/-- A piece without listing call counts zero listing calls. -/
theorem NoList.listCalls {a : List Event} (ha : NoList a) : listCalls a = 0 := by
  simp only [downloader.listCalls, List.countP_eq_zero]
  intro ev hev; simp [ha ev hev]

/-- The retry loop touches neither the counters of calls nor `Total` and `Running`,
and only appends task events to the trace. -/
theorem retryLoop_frame (w : World) (t : Nat) (key loc : String) :
    ∀ (n a : Nat) (e : GoError) (r : Run),
      (retryLoop w t key loc n a e r).1.nList = r.nList ∧
      (retryLoop w t key loc n a e r).1.nTask = r.nTask ∧
      (retryLoop w t key loc n a e r).1.status.Total = r.status.Total ∧
      (retryLoop w t key loc n a e r).1.status.Running = r.status.Running ∧
      ∃ ext, (retryLoop w t key loc n a e r).1.trace = r.trace ++ ext ∧ NoList ext := by
  intro n
  induction n with
  | zero => intro a e r; exact ⟨rfl, rfl, rfl, rfl, [], by simp [retryLoop], NoList.ofNil⟩
  | succ n ih =>
    intro a e r
    have one : NoList [Event.attempt t a] := by simp [NoList, Event.isList]
    have two : ∀ d, NoList [Event.attempt t a, Event.download t a key loc d] := by
      intro d; simp [NoList, Event.isList]
    cases hd : EnsureDir w t a loc with
    | some err =>
      obtain ⟨h1, h2, h3, h4, ext, h5, h6⟩ := ih (a + 1) (some err) (r.log (.attempt t a))
      simp only [retryLoop, hd]
      refine ⟨h1, h2, h3, h4, [Event.attempt t a] ++ ext, ?_, one.concat h6⟩
      rw [h5]; simp [Run.log]
    | none =>
      cases hdl : Download w t a key loc with
      | none =>
        simp only [retryLoop, hd, hdl]
        exact ⟨rfl, rfl, rfl, rfl, _, by simp [Run.addFinished, Run.log], two none⟩
      | some err =>
        obtain ⟨h1, h2, h3, h4, ext, h5, h6⟩ := ih (a + 1) (some err)
          ((r.log (.attempt t a)).log (.download t a key loc (some err)))
        simp only [retryLoop, hd, hdl]
        refine ⟨h1, h2, h3, h4, [Event.attempt t a, Event.download t a key loc (some err)] ++ ext,
          ?_, (two _).concat h6⟩
        rw [h5]; simp [Run.log]

/-- The retry loop cannot fall through with a `nil` error once an iteration ran or an
error was already recorded. -/
theorem retryLoop_fellThrough_ne_none (w : World) (t : Nat) (key loc : String) :
    ∀ (n a : Nat) (e : GoError) (r r1 : Run) (d : GoError),
      retryLoop w t key loc n a e r = (r1, LoopExit.fellThrough d) →
      (0 < n ∨ e ≠ none) → d ≠ none := by
  intro n
  induction n with
  | zero =>
    intro a e r r1 d h hne
    simp only [retryLoop, Prod.mk.injEq, LoopExit.fellThrough.injEq] at h
    rcases hne with h0 | h0
    · exact absurd h0 (lt_irrefl 0)
    · rw [← h.2]; exact h0
  | succ n ih =>
    intro a e r r1 d h _
    simp only [retryLoop] at h
    cases hd : EnsureDir w t a loc with
    | some err =>
      rw [hd] at h
      exact ih _ _ _ _ _ h (Or.inr (by simp))
    | none =>
      rw [hd] at h
      cases hdl : Download w t a key loc with
      | none => rw [hdl] at h; simp at h
      | some err =>
        rw [hdl] at h
        exact ih _ _ _ _ _ h (Or.inr (by simp))

/-- A fetch task touches neither the counters of calls nor `Total` and `Running`, and
appends no listing call to the trace. -/
theorem fetchTask_frame (w : World) (cfg : Config) (dest : String) (t : Nat)
    (o : ObjectInfo) (r : Run) :
    (fetchTask w cfg dest t o r).1.nList = r.nList ∧
    (fetchTask w cfg dest t o r).1.nTask = r.nTask ∧
    (fetchTask w cfg dest t o r).1.status.Total = r.status.Total ∧
    (fetchTask w cfg dest t o r).1.status.Running = r.status.Running ∧
    ∃ ext, (fetchTask w cfg dest t o r).1.trace = r.trace ++ ext ∧ NoList ext := by
  by_cases hc : w.ctxDone t = true
  · have h : fetchTask w cfg dest t o r = (r, false) := by simp [fetchTask, hc]
    rw [h]; exact ⟨rfl, rfl, rfl, rfl, [], by simp, NoList.ofNil⟩
  · by_cases hs : w.stat t (w.join dest o.Key) = some o.Size
    · have h : fetchTask w cfg dest t o r = (r.addFinished, false) := by
        simp [fetchTask, hc, hs]
      rw [h]; exact ⟨rfl, rfl, rfl, rfl, [], by simp [Run.addFinished], NoList.ofNil⟩
    · obtain ⟨h1, h2, h3, h4, ext, h5, h6⟩ :=
        retryLoop_frame w t o.Key (w.join dest o.Key) (cfg.MaxRetries + 1).toNat 0 none r
      rcases hrun : retryLoop w t o.Key (w.join dest o.Key) (cfg.MaxRetries + 1).toNat 0 none r
        with ⟨r1, x⟩
      rw [hrun] at h1 h2 h3 h4 h5
      simp only at h1 h2 h3 h4 h5
      cases x with
      | returned =>
        have h : fetchTask w cfg dest t o r = (r1, false) := by
          simp [fetchTask, hc, hs, hrun]
        rw [h]; exact ⟨h1, h2, h3, h4, ext, h5, h6⟩
      | fellThrough d =>
        cases d with
        | none =>
          have h : fetchTask w cfg dest t o r = (r1.addFailed, true) := by
            simp [fetchTask, hc, hs, hrun]
          rw [h]; exact ⟨h1, h2, h3, h4, ext, h5, h6⟩
        | some msg =>
          have h : fetchTask w cfg dest t o r = ((r1.addFailed).setLastError msg, false) := by
            simp [fetchTask, hc, hs, hrun]
          rw [h]; exact ⟨h1, h2, h3, h4, ext, h5, h6⟩

/-- With `MaxRetries >= 0` the retry loop runs at least once, so a fetch task never
reaches `dlErr.Error()` with a `nil` error. -/
theorem fetchTask_no_panic (w : World) (cfg : Config) (dest : String) (t : Nat)
    (o : ObjectInfo) (r : Run) (hmax : 0 ≤ cfg.MaxRetries) :
    (fetchTask w cfg dest t o r).2 = false := by
  unfold fetchTask
  by_cases hc : w.ctxDone t = true
  · simp [hc]
  · simp only [hc]
    by_cases hs : w.stat t (w.join dest o.Key) = some o.Size
    · simp [hs]
    · simp only [hs, if_false]
      rcases hrun : retryLoop w t o.Key (w.join dest o.Key) (cfg.MaxRetries + 1).toNat 0 none r
        with ⟨r1, x⟩
      cases x with
      | returned => rfl
      | fellThrough d =>
        have := retryLoop_fellThrough_ne_none w t _ _ _ _ _ _ _ _ hrun (Or.inl (by omega))
        cases d with
        | none => exact absurd rfl this
        | some msg => rfl

/-- A cancelled fetch task returns at once and changes nothing. -/
theorem fetchTask_cancelled (w : World) (cfg : Config) (dest : String) (t : Nat)
    (o : ObjectInfo) (r : Run) (hctx : w.ctxDone t = true) :
    fetchTask w cfg dest t o r = (r, false) := by
  simp [fetchTask, hctx]

/-- A fetch task whose object is present locally with the listed size only adds one
to `Finished`. -/
theorem fetchTask_present (w : World) (cfg : Config) (dest : String) (t : Nat)
    (o : ObjectInfo) (r : Run) (hctx : w.ctxDone t = false)
    (hstat : w.stat t (w.join dest o.Key) = some o.Size) :
    fetchTask w cfg dest t o r = (r.addFinished, false) := by
  simp [fetchTask, hctx, hstat]

/-- The result of a fetch task whose `Download` first succeeds at attempt `k`. -/
theorem fetchTask_success (w : World) (cfg : Config) (dest : String)
    (t : Nat) (o : ObjectInfo) (r : Run) (k : Nat)
    (hk : (k : Int) ≤ cfg.MaxRetries)
    (hctx : w.ctxDone t = false)
    (hstat : w.stat t (w.join dest o.Key) ≠ some o.Size)
    (hdir : ∀ a ≤ k, EnsureDir w t a (w.join dest o.Key) = none)
    (hfail : ∀ a < k, Download w t a o.Key (w.join dest o.Key) ≠ none)
    (hok : Download w t k o.Key (w.join dest o.Key) = none) :
    ∃ r1, fetchTask w cfg dest t o r = (r1, false) ∧
      r1.status = { r.status with Finished := r.status.Finished + 1 } ∧
      downloadCalls r1.trace = downloadCalls r.trace + (k + 1) ∧
      r1.nList = r.nList ∧ r1.nTask = r.nTask := by
  obtain ⟨r1, hrun, hst, hdl, -, hl, ht⟩ :=
    retryLoop_success w t o.Key (w.join dest o.Key) k (cfg.MaxRetries + 1).toNat 0 none r
      (by omega)
      (fun i hi => by simpa using hdir i hi)
      (fun i hi => by simpa using hfail i hi)
      (by simpa using hok)
  exact ⟨r1, by simp [fetchTask, hctx, hstat, hrun], hst, hdl, hl, ht⟩

/-- The result of a fetch task whose every attempt fails. -/
theorem fetchTask_exhausted (w : World) (cfg : Config) (dest : String)
    (t : Nat) (o : ObjectInfo) (r : Run)
    (hmax : 0 ≤ cfg.MaxRetries)
    (hctx : w.ctxDone t = false)
    (hstat : w.stat t (w.join dest o.Key) ≠ some o.Size)
    (hfail : ∀ a : Nat, (a : Int) ≤ cfg.MaxRetries →
      attemptError w t a o.Key (w.join dest o.Key) ≠ none) :
    ∃ r1 msg, fetchTask w cfg dest t o r = (r1, false) ∧
      attemptError w t cfg.MaxRetries.toNat o.Key (w.join dest o.Key) = some msg ∧
      r1.status = { r.status with Failed := r.status.Failed + 1, LastError := msg } ∧
      (attempts r1.trace : Int) = attempts r.trace + (cfg.MaxRetries + 1) ∧
      r1.nList = r.nList ∧ r1.nTask = r.nTask := by
  obtain ⟨m, hm⟩ : ∃ m : Nat, cfg.MaxRetries = m := ⟨cfg.MaxRetries.toNat, by omega⟩
  have hn : (cfg.MaxRetries + 1).toNat = m + 1 := by omega
  obtain ⟨r1, d, hrun, -, hdpos, hst, hat, -, hl, ht⟩ :=
    retryLoop_allFail w t o.Key (w.join dest o.Key) (m + 1) 0 none r
      (fun i hi => by simpa using hfail i (by omega))
  have hd := hdpos (Nat.succ_pos _)
  simp only [Nat.zero_add, Nat.add_sub_cancel] at hd
  obtain ⟨msg, hmsg⟩ : ∃ msg, d = some msg := by
    cases hd2 : d with
    | none => exact absurd (hd ▸ hd2) (hfail m (by omega))
    | some msg => exact ⟨msg, rfl⟩
  have hmt : cfg.MaxRetries.toNat = m := by omega
  subst hmsg
  refine ⟨(r1.addFailed).setLastError msg, msg, ?_, ?_, ?_, ?_, ?_, ?_⟩
  · simp [fetchTask, hctx, hstat, hn, hrun]
  · rw [hmt, ← hd]
  · simp [Run.addFailed, Run.setLastError, hst]
  · simp [Run.addFailed, Run.setLastError, hat, hm]
  · simpa [Run.addFailed, Run.setLastError] using hl
  · simpa [Run.addFailed, Run.setLastError] using ht

/-- C1. A fetch task that is not cancelled, whose object is not present locally with
the listed size, whose directory creation succeeds, and whose `Download` fails on the
first `k` attempts and succeeds on attempt `k + 1`, with `k < MaxRetries`: the task
does not panic, calls `Download` exactly `k + 1` times, and the status it leaves is
the one it found with `Finished` one higher (`Failed`, `LastError`, `Total` and
`Running` unchanged). -/
theorem fetchTask_retry_then_success (w : World) (cfg : Config) (dest : String)
    (t : Nat) (o : ObjectInfo) (r : Run) (k : Nat)
    (hk : (k : Int) < cfg.MaxRetries)
    (hctx : w.ctxDone t = false)
    (hstat : w.stat t (w.join dest o.Key) ≠ some o.Size)
    (hdir : ∀ a ≤ k, EnsureDir w t a (w.join dest o.Key) = none)
    (hfail : ∀ a < k, Download w t a o.Key (w.join dest o.Key) ≠ none)
    (hok : Download w t k o.Key (w.join dest o.Key) = none) :
    (fetchTask w cfg dest t o r).2 = false ∧
    downloadCalls (fetchTask w cfg dest t o r).1.trace = downloadCalls r.trace + (k + 1) ∧
    (fetchTask w cfg dest t o r).1.status =
      { r.status with Finished := r.status.Finished + 1 } := by
  obtain ⟨r1, hrun, hst, hdl, -, -⟩ :=
    fetchTask_success w cfg dest t o r k (le_of_lt hk) hctx hstat hdir hfail hok
  rw [hrun]
  exact ⟨rfl, hdl, hst⟩

/-- C2. A fetch task that is not cancelled, whose object is not present locally with
the listed size, and whose every attempt fails (in `EnsureDir` or in `Download`),
with `MaxRetries >= 0`: the task does not panic, makes exactly `MaxRetries + 1`
attempts, and the status it leaves is the one it found with `Failed` one higher and
`LastError` the error text of the last attempt (`Finished`, `Total`, `Running`
unchanged). -/
theorem fetchTask_retries_exhausted (w : World) (cfg : Config) (dest : String)
    (t : Nat) (o : ObjectInfo) (r : Run)
    (hmax : 0 ≤ cfg.MaxRetries)
    (hctx : w.ctxDone t = false)
    (hstat : w.stat t (w.join dest o.Key) ≠ some o.Size)
    (hfail : ∀ a : Nat, (a : Int) ≤ cfg.MaxRetries →
      attemptError w t a o.Key (w.join dest o.Key) ≠ none) :
    (fetchTask w cfg dest t o r).2 = false ∧
    (attempts (fetchTask w cfg dest t o r).1.trace : Int) =
      attempts r.trace + (cfg.MaxRetries + 1) ∧
    some (fetchTask w cfg dest t o r).1.status.LastError =
      attemptError w t cfg.MaxRetries.toNat o.Key (w.join dest o.Key) ∧
    (fetchTask w cfg dest t o r).1.status =
      { r.status with Failed := r.status.Failed + 1,
                      LastError := (fetchTask w cfg dest t o r).1.status.LastError } := by
  obtain ⟨r1, msg, hrun, hmsg, hst, hat, -, -⟩ :=
    fetchTask_exhausted w cfg dest t o r hmax hctx hstat hfail
  rw [hrun]
  refine ⟨rfl, hat, ?_, ?_⟩
  · rw [hmsg, hst]
  · simp [hst]

/-- A directory placeholder does not count. -/
theorem nonDirs_cons_dir (o : ObjectInfo) (rest : List ObjectInfo) (h : o.IsDir = true) :
    nonDirs (o :: rest) = nonDirs rest := by
  simp [nonDirs, h]

/-- A non-directory entry counts for one. -/
theorem nonDirs_cons_file (o : ObjectInfo) (rest : List ObjectInfo) (h : ¬ o.IsDir = true) :
    nonDirs (o :: rest) = nonDirs rest + 1 := by
  simp [nonDirs, h]

/-- One step of the objects loop on a non-directory entry, when the channel has a
buffer: `Total` goes up, the goroutine is started and run. -/
theorem objectsLoop_cons_file (w : World) (cfg : Config) (dest : String)
    (o : ObjectInfo) (rest : List ObjectInfo) (r : Run)
    (hdir : ¬ o.IsDir = true) (hc : cfg.Concurrency ≠ 0) :
    objectsLoop w cfg dest (o :: rest) r =
      match fetchTask w cfg dest r.nTask o
          (r.addTotal.startTask o.Key) with
      | (r3, true) => (r3, Exit.panicked)
      | (r3, false) => objectsLoop w cfg dest rest r3 := by
  have h : r.addTotal.nTask = r.nTask := rfl
  simp [objectsLoop, hdir, hc, h]

/-- The objects loop never makes a listing call: the listing counter, `Running` and
the listing calls of the trace stay as they are. -/
theorem objectsLoop_frame (w : World) (cfg : Config) (dest : String) :
    ∀ (list : List ObjectInfo) (r : Run),
      (objectsLoop w cfg dest list r).1.nList = r.nList ∧
      (objectsLoop w cfg dest list r).1.status.Running = r.status.Running ∧
      ∃ ext, (objectsLoop w cfg dest list r).1.trace = r.trace ++ ext ∧ NoList ext := by
  intro list
  induction list with
  | nil => intro r; exact ⟨rfl, rfl, [], by simp [objectsLoop], NoList.ofNil⟩
  | cons o rest ih =>
    intro r
    by_cases hdir : o.IsDir = true
    · simpa [objectsLoop, hdir] using ih r
    · by_cases hc : cfg.Concurrency = 0
      · have h : objectsLoop w cfg dest (o :: rest) r = (r.addTotal, Exit.blocked) := by
          simp [objectsLoop, hdir, hc]
        rw [h]
        exact ⟨rfl, rfl, [], by simp [Run.addTotal], NoList.ofNil⟩
      · have hd : NoList [Event.dispatch r.nTask o.Key] := by simp [NoList, Event.isList]
        obtain ⟨f1, -, -, f4, ext, f5, f6⟩ := fetchTask_frame w cfg dest r.nTask o
          (r.addTotal.startTask o.Key)
        rcases htask : fetchTask w cfg dest r.nTask o
          (r.addTotal.startTask o.Key)
          with ⟨r3, p⟩
        rw [htask] at f1 f4 f5
        simp only [Run.addTotal, Run.startTask] at f1 f4 f5
        cases p with
        | true =>
          have h : objectsLoop w cfg dest (o :: rest) r = (r3, Exit.panicked) := by
            rw [objectsLoop_cons_file w cfg dest o rest r hdir hc, htask]
          rw [h]
          exact ⟨f1, f4, _, by rw [f5, List.append_assoc], hd.concat f6⟩
        | false =>
          have h : objectsLoop w cfg dest (o :: rest) r = objectsLoop w cfg dest rest r3 := by
            rw [objectsLoop_cons_file w cfg dest o rest r hdir hc, htask]
          rw [h]
          obtain ⟨g1, g2, ext2, g5, g6⟩ := ih r3
          refine ⟨g1.trans f1, g2.trans f4, _, ?_, (hd.concat f6).concat g6⟩
          rw [g5, f5]; simp

/-- With a buffered semaphore and `MaxRetries >= 0` the objects loop runs to its end
and adds the number of non-directory entries to `Total`. -/
theorem objectsLoop_total (w : World) (cfg : Config) (dest : String)
    (hc : 1 ≤ cfg.Concurrency) (hmax : 0 ≤ cfg.MaxRetries) :
    ∀ (list : List ObjectInfo) (r : Run),
      (objectsLoop w cfg dest list r).2 = Exit.normal ∧
      (objectsLoop w cfg dest list r).1.status.Total = r.status.Total + nonDirs list := by
  intro list
  induction list with
  | nil => intro r; simp [objectsLoop, nonDirs]
  | cons o rest ih =>
    intro r
    by_cases hdir : o.IsDir = true
    · rw [nonDirs_cons_dir o rest hdir]
      simpa [objectsLoop, hdir] using ih r
    · rw [objectsLoop_cons_file w cfg dest o rest r hdir (by omega),
        nonDirs_cons_file o rest hdir]
      have hp := fetchTask_no_panic w cfg dest r.nTask o
        (r.addTotal.startTask o.Key) hmax
      obtain ⟨-, -, f3, -, -⟩ := fetchTask_frame w cfg dest r.nTask o
        (r.addTotal.startTask o.Key)
      rcases htask : fetchTask w cfg dest r.nTask o
        (r.addTotal.startTask o.Key)
        with ⟨r3, p⟩
      rw [htask] at hp f3
      simp only at hp
      subst hp
      simp only [Run.addTotal, Run.startTask] at f3
      obtain ⟨i1, i2⟩ := ih r3
      exact ⟨i1, by rw [i2, f3]; omega⟩

/-- With a buffered semaphore, no cancellation and every non-directory entry present
locally with the listed size, the objects loop runs to its end, adds the number of
non-directory entries to `Total` and to `Finished`, leaves the rest of the status as
it is and calls `Download` not once. -/
theorem objectsLoop_present (w : World) (cfg : Config) (dest : String)
    (hc : 1 ≤ cfg.Concurrency) (hctx : ∀ t, w.ctxDone t = false) :
    ∀ (list : List ObjectInfo) (r : Run), AllPresent w dest list →
      (objectsLoop w cfg dest list r).2 = Exit.normal ∧
      (objectsLoop w cfg dest list r).1.status =
        { r.status with Total := r.status.Total + nonDirs list,
                        Finished := r.status.Finished + nonDirs list } ∧
      downloadCalls (objectsLoop w cfg dest list r).1.trace = downloadCalls r.trace := by
  intro list
  induction list with
  | nil => intro r _; simp [objectsLoop, nonDirs]
  | cons o rest ih =>
    intro r hall
    have hrest : AllPresent w dest rest := fun x hx => hall x (List.mem_cons_of_mem _ hx)
    by_cases hdir : o.IsDir = true
    · rw [nonDirs_cons_dir o rest hdir]
      simpa [objectsLoop, hdir] using ih r hrest
    · rw [objectsLoop_cons_file w cfg dest o rest r hdir (by omega),
        nonDirs_cons_file o rest hdir,
        fetchTask_present w cfg dest r.nTask o _ (hctx _)
          (hall o (List.mem_cons_self _ _) (by simpa using hdir) _)]
      obtain ⟨i1, i2, i3⟩ := ih
        (r.addTotal.startTask o.Key).addFinished hrest
      refine ⟨i1, ?_, ?_⟩
      · rw [i2]; simp [Run.addFinished, Run.addTotal, Run.startTask]; omega
      · rw [i3]; simp [Run.addFinished, Run.addTotal, Run.startTask, downloadCalls, Event.isDownload]

/-- One iteration of the pagination loop when the listing call fails: the function
gives no state. -/
theorem pageLoop_error (w : World) (cfg : Config) (dest pfx : String) (fuel : Nat)
    (marker : String) (r : Run) (msg : String)
    (h : ListObjects (w.listing r.nList pfx marker) = .error msg) :
    pageLoop w cfg dest pfx (fuel + 1) marker r = none := by
  simp [pageLoop, h]

/-- One iteration of the pagination loop when the listing call succeeds. -/
theorem pageLoop_ok (w : World) (cfg : Config) (dest pfx : String) (fuel : Nat)
    (marker : String) (r : Run) (list : List ObjectInfo) (next : String)
    (h : ListObjects (w.listing r.nList pfx marker) = .ok (list, next)) :
    pageLoop w cfg dest pfx (fuel + 1) marker r =
      match objectsLoop w cfg dest list (r.listed pfx marker) with
      | (r2, Exit.normal) =>
        if next = "" then some (r2, Exit.normal) else pageLoop w cfg dest pfx fuel next r2
      | (r2, e) => some (r2, e) := by
  simp [pageLoop, h]

/-- Along a page chain, with a buffered semaphore and `MaxRetries >= 0`, the
pagination loop makes one listing call per page of the chain and then ends; `Total`
grows by the number of non-directory entries over all pages. -/
theorem pageLoop_total (w : World) (cfg : Config) (dest pfx : String)
    (hc : 1 ≤ cfg.Concurrency) (hmax : 0 ≤ cfg.MaxRetries) :
    ∀ (ps : List (List ObjectInfo × String)) (fuel : Nat) (marker : String) (r : Run),
      PageChain w pfx r.nList marker ps → ps.length ≤ fuel →
      ∃ r1, pageLoop w cfg dest pfx fuel marker r = some (r1, Exit.normal) ∧
        r1.nList = r.nList + ps.length ∧
        listCalls r1.trace = listCalls r.trace + ps.length ∧
        r1.status.Total = r.status.Total + nonDirsPages ps ∧
        r1.status.Running = r.status.Running := by
  intro ps
  induction ps with
  | nil => intro fuel marker r h; exact absurd h (by simp [PageChain])
  | cons p rest ih =>
    intro fuel marker r hchain hfuel
    obtain ⟨fuel, rfl⟩ : ∃ f, fuel = f + 1 := ⟨fuel - 1, by simp at hfuel; omega⟩
    obtain ⟨list, next⟩ := p
    simp only [PageChain] at hchain
    obtain ⟨hlist, hrest⟩ := hchain
    rw [pageLoop_ok w cfg dest pfx fuel marker r list next hlist]
    obtain ⟨o1, o2⟩ := objectsLoop_total w cfg dest hc hmax list (r.listed pfx marker)
    obtain ⟨f1, f2, ext, f4, f5⟩ := objectsLoop_frame w cfg dest list (r.listed pfx marker)
    rcases hobj : objectsLoop w cfg dest list (r.listed pfx marker) with ⟨r2, e⟩
    rw [hobj] at o1 o2 f1 f2 f4
    simp only at o1 o2 f1 f2 f4
    subst o1
    simp only [Run.listed] at o2 f1 f2 f4
    have hcalls : listCalls r2.trace = listCalls r.trace + 1 := by
      rw [f4, listCalls_append, f5.listCalls, listCalls_append]
      simp [listCalls, Event.isList]
    cases rest with
    | nil =>
      simp only at hrest
      refine ⟨r2, by simp [hrest], ?_, ?_, ?_, f2⟩
      · simpa using f1
      · simpa using hcalls
      · simpa [nonDirsPages] using o2
    | cons q rest2 =>
      simp only at hrest
      obtain ⟨hne, hchain2⟩ := hrest
      rw [← f1] at hchain2
      obtain ⟨r1, i1, i2, i3, i4, i5⟩ := ih fuel next r2 hchain2 (by simp at hfuel ⊢; omega)
      refine ⟨r1, by simp [hne, i1], ?_, ?_, ?_, i5.trans f2⟩
      · rw [i2, f1]; simp; omega
      · rw [i3, hcalls]; simp; omega
      · rw [i4, o2]; simp [nonDirsPages]; omega

/-- The collecting loop of `ListObjects` on a channel without error elements: every
element is appended, and the key remembered is that of the last element. -/
theorem listCollect_ok :
    ∀ (raw : List RawObject) (out : List ObjectInfo) (lastKey : String),
      (∀ o ∈ raw, o.Err = none) →
      listCollect raw out lastKey =
        .ok (out ++ raw.map entryOf, ((raw.getLast?).map (fun o => o.Key)).getD lastKey) := by
  intro raw
  induction raw with
  | nil => intro out lastKey _; simp [listCollect]
  | cons o rest ih =>
    intro out lastKey h
    have ho : o.Err = none := h o (List.mem_cons_self _ _)
    have hrest : ∀ x ∈ rest, x.Err = none := fun x hx => h x (List.mem_cons_of_mem _ hx)
    simp only [listCollect, ho]
    rw [ih _ _ hrest]
    cases rest with
    | nil => simp
    | cons q rest2 =>
      obtain ⟨x, hx⟩ : ∃ x, (q :: rest2).getLast? = some x :=
        ⟨_, List.getLast?_eq_getLast _ (by simp)⟩
      rw [List.getLast?_cons_cons, hx]
      simp

/-- `ListObjects` on an empty channel: no entries and the empty marker. -/
theorem ListObjects_nil : ListObjects [] = .ok ([], "") := by
  simp [ListObjects, listCollect]

/-- `ListObjects` on a channel that yields exactly `limit` elements, none an error,
the last with a non-empty key: all entries, and the last key as next marker. -/
theorem ListObjects_full (raw : List RawObject) (last : RawObject)
    (hlen : raw.length = limit) (herr : ∀ o ∈ raw, o.Err = none)
    (hlast : raw.getLast? = some last) (hkey : last.Key ≠ "") :
    ListObjects raw = .ok (raw.map entryOf, last.Key) := by
  simp [ListObjects, listCollect_ok raw [] "" herr, hlast, hkey, hlen]

/-- C5. Pagination. (1) A prefix holding exactly 1000 objects, none a directory
placeholder: the first `ListObjects` call (empty marker) returns the 1000 entries
and a non-empty next marker (the last key), the call with that marker returns no
entry and the empty marker, and the pagination loop of `Worker` for the prefix
ends after exactly these two calls with `Total` 1000 higher. (2) In general, when
the successive pages for a prefix are `ps`, the last of them the first with an empty
next marker, the pagination loop ends after exactly `ps.length` listing calls and
`Total` has grown by the number of non-directory entries over all pages. -/
theorem pageLoop_terminates (w : World) (cfg : Config) (dest pfx : String)
    (hc : 1 ≤ cfg.Concurrency) (hmax : 0 ≤ cfg.MaxRetries) :
    (∀ (raw : List RawObject) (last : RawObject) (r : Run) (fuel : Nat),
      raw.length = 1000 →
      (∀ o ∈ raw, o.Err = none ∧ hasSuffix o.Key "/" = false) →
      raw.getLast? = some last → last.Key ≠ "" →
      w.listing r.nList pfx "" = raw →
      w.listing (r.nList + 1) pfx last.Key = [] →
      2 ≤ fuel →
      ListObjects (w.listing r.nList pfx "") = .ok (raw.map entryOf, last.Key) ∧
      (raw.map entryOf).length = 1000 ∧
      ListObjects (w.listing (r.nList + 1) pfx last.Key) = .ok ([], "") ∧
      ∃ r1, pageLoop w cfg dest pfx fuel "" r = some (r1, Exit.normal) ∧
        listCalls r1.trace = listCalls r.trace + 2 ∧
        r1.status.Total = r.status.Total + 1000) ∧
    (∀ (ps : List (List ObjectInfo × String)) (marker : String) (r : Run) (fuel : Nat),
      PageChain w pfx r.nList marker ps → ps.length ≤ fuel →
      ∃ r1, pageLoop w cfg dest pfx fuel marker r = some (r1, Exit.normal) ∧
        listCalls r1.trace = listCalls r.trace + ps.length ∧
        r1.status.Total = r.status.Total + nonDirsPages ps) := by
  constructor
  · intro raw last r fuel hlen hraw hlast hkey h1 h2 hfuel
    have hfirst : ListObjects (w.listing r.nList pfx "") = .ok (raw.map entryOf, last.Key) := by
      rw [h1]
      exact ListObjects_full raw last hlen (fun o ho => (hraw o ho).1) hlast hkey
    have hsecond : ListObjects (w.listing (r.nList + 1) pfx last.Key) = .ok ([], "") := by
      rw [h2]; exact ListObjects_nil
    have hchain : PageChain w pfx r.nList "" [(raw.map entryOf, last.Key), ([], "")] := by
      simp [PageChain, hfirst, hsecond, hkey]
    obtain ⟨r1, p1, -, p3, p4, -⟩ :=
      pageLoop_total w cfg dest pfx hc hmax _ fuel "" r hchain (by simpa using hfuel)
    have hcount : nonDirs (raw.map entryOf) = 1000 := by
      rw [← hlen, nonDirs, List.countP_eq_length.2, List.length_map]
      intro o ho
      obtain ⟨x, hx, rfl⟩ := List.mem_map.1 ho
      simp [entryOf, (hraw x hx).2]
    refine ⟨hfirst, by simp [hlen], hsecond, r1, p1, by simpa using p3, ?_⟩
    rw [p4]
    simp only [nonDirsPages, List.map, List.sum_cons, List.sum_nil, hcount]
    simp [nonDirs]
  · intro ps marker r fuel hchain hfuel
    obtain ⟨r1, p1, -, p3, p4, -⟩ :=
      pageLoop_total w cfg dest pfx hc hmax ps fuel marker r hchain hfuel
    exact ⟨r1, p1, p3, p4⟩

/-- Along a page chain whose non-directory entries are all present locally, without
cancellation and with a buffered semaphore, the pagination loop ends normally; it
adds the number of those entries to `Total` and to `Finished`, changes nothing else
in the status and never calls `Download`. -/
theorem pageLoop_present (w : World) (cfg : Config) (dest pfx : String)
    (hc : 1 ≤ cfg.Concurrency) (hctx : ∀ t, w.ctxDone t = false) :
    ∀ (ps : List (List ObjectInfo × String)) (fuel : Nat) (marker : String) (r : Run),
      PageChain w pfx r.nList marker ps → ps.length ≤ fuel →
      (∀ p ∈ ps, AllPresent w dest p.1) →
      ∃ r1, pageLoop w cfg dest pfx fuel marker r = some (r1, Exit.normal) ∧
        r1.nList = r.nList + ps.length ∧
        r1.status = { r.status with Total := r.status.Total + nonDirsPages ps,
                                    Finished := r.status.Finished + nonDirsPages ps } ∧
        downloadCalls r1.trace = downloadCalls r.trace := by
  intro ps
  induction ps with
  | nil => intro fuel marker r h; exact absurd h (by simp [PageChain])
  | cons p rest ih =>
    intro fuel marker r hchain hfuel hall
    obtain ⟨fuel, rfl⟩ : ∃ f, fuel = f + 1 := ⟨fuel - 1, by simp at hfuel; omega⟩
    obtain ⟨list, next⟩ := p
    simp only [PageChain] at hchain
    obtain ⟨hlist, hrest⟩ := hchain
    rw [pageLoop_ok w cfg dest pfx fuel marker r list next hlist]
    obtain ⟨o1, o2, o3⟩ := objectsLoop_present w cfg dest hc hctx list
      (r.listed pfx marker) (hall _ (List.mem_cons_self _ _))
    obtain ⟨f1, -, -⟩ := objectsLoop_frame w cfg dest list (r.listed pfx marker)
    rcases hobj : objectsLoop w cfg dest list (r.listed pfx marker) with ⟨r2, e⟩
    rw [hobj] at o1 o2 o3 f1
    simp only at o1 o2 o3 f1
    subst o1
    simp only [Run.listed] at o2 o3 f1
    have hdl : downloadCalls r2.trace = downloadCalls r.trace := by
      rw [o3]; simp [downloadCalls, Event.isDownload]
    cases rest with
    | nil =>
      simp only at hrest
      refine ⟨r2, by simp [hrest], by simpa using f1, ?_, hdl⟩
      rw [o2]; simp [nonDirsPages]
    | cons q rest2 =>
      simp only at hrest
      obtain ⟨hne, hchain2⟩ := hrest
      rw [← f1] at hchain2
      obtain ⟨r1, i1, i2, i3, i4⟩ := ih fuel next r2 hchain2 (by simp at hfuel ⊢; omega)
        (fun p hp => hall p (List.mem_cons_of_mem _ hp))
      refine ⟨r1, by simp [hne, i1], ?_, ?_, i4.trans hdl⟩
      · rw [i2, f1]; simp; omega
      · rw [i3, o2]; simp [nonDirsPages]; omega

/-- The loop over the prefixes, under the assumptions of `pageLoop_present` for every
prefix. -/
theorem prefixLoop_present (w : World) (cfg : Config) (dest : String) (fuel : Nat)
    (hc : 1 ≤ cfg.Concurrency) (hctx : ∀ t, w.ctxDone t = false) :
    ∀ (prefixes : List String) (pss : List (List (List ObjectInfo × String))) (r : Run),
      Listing w r.nList prefixes pss → (∀ ps ∈ pss, ps.length ≤ fuel) →
      (∀ ps ∈ pss, ∀ p ∈ ps, AllPresent w dest p.1) →
      ∃ r1, prefixLoop w cfg dest fuel prefixes r = some (r1, Exit.normal) ∧
        r1.status = { r.status with Total := r.status.Total + nonDirsAll pss,
                                    Finished := r.status.Finished + nonDirsAll pss } ∧
        downloadCalls r1.trace = downloadCalls r.trace := by
  intro prefixes
  induction prefixes with
  | nil =>
    intro pss r hl _ _
    cases pss with
    | nil => exact ⟨r, by simp [prefixLoop], by simp [nonDirsAll], rfl⟩
    | cons ps pss => simp [Listing] at hl
  | cons pfx rest ih =>
    intro pss r hl hfuel hall
    cases pss with
    | nil => simp [Listing] at hl
    | cons ps pss =>
      simp only [Listing] at hl
      obtain ⟨hchain, hrest⟩ := hl
      obtain ⟨r1, p1, p2, p3, p4⟩ := pageLoop_present w cfg dest pfx hc hctx ps fuel "" r
        hchain (hfuel ps (List.mem_cons_self _ _)) (hall ps (List.mem_cons_self _ _))
      rw [← p2] at hrest
      obtain ⟨r2, q1, q2, q3⟩ := ih pss r1 hrest
        (fun x hx => hfuel x (List.mem_cons_of_mem _ hx))
        (fun x hx => hall x (List.mem_cons_of_mem _ hx))
      refine ⟨r2, by simp [prefixLoop, p1, q1], ?_, q3.trans p4⟩
      rw [q2, p3]; simp [nonDirsAll]; omega

/-- C4. The second of two runs of `Worker` over the same prefixes and destination:
the listing of every prefix ends within `fuel` pages without error, the context is
not cancelled, and every non-directory entry listed exists at
`filepath.Join(dest, key)` with its listed size.  Then `Worker` returns normally
from a zeroed status with `Finished = Total` (the number of non-directory entries
listed), `Failed = 0`, `Running = false`, and without a single `Download` call. -/
theorem Worker_second_run (fuel : Nat) (w : World) (cfg : Config)
    (prefixes : List String) (dest : String)
    (pss : List (List (List ObjectInfo × String)))
    (hc : 1 ≤ cfg.Concurrency) (hctx : ∀ t, w.ctxDone t = false)
    (hlist : Listing w 0 prefixes pss) (hfuel : ∀ ps ∈ pss, ps.length ≤ fuel)
    (hpresent : ∀ ps ∈ pss, ∀ p ∈ ps, AllPresent w dest p.1) :
    ∃ r, Worker fuel w cfg prefixes dest zeroStatus = some (r, Exit.normal) ∧
      r.status.Finished = r.status.Total ∧
      r.status.Total = nonDirsAll pss ∧
      r.status.Failed = 0 ∧
      r.status.Running = false ∧
      downloadCalls r.trace = 0 := by
  obtain ⟨r1, p1, p2, p3⟩ := prefixLoop_present w cfg dest fuel hc hctx prefixes pss
    (WorkerEntry zeroStatus) hlist hfuel hpresent
  refine ⟨r1.setRunning false, ?_, ?_, ?_, ?_, ?_, ?_⟩
  · have : ¬ cfg.Concurrency < 0 := by omega
    simp [Worker, this, p1]
  · simp [Run.setRunning, p2, WorkerEntry, zeroStatus]
  · simp [Run.setRunning, p2, WorkerEntry, zeroStatus]
  · simp [Run.setRunning, p2, WorkerEntry, zeroStatus]
  · simp [Run.setRunning]
  · simpa [Run.setRunning, WorkerEntry, downloadCalls] using p3

/-- One step of the objects loop on a non-directory entry whose task does not panic. -/
theorem objectsLoop_cons_task (w : World) (cfg : Config) (dest : String)
    (o : ObjectInfo) (rest : List ObjectInfo) (r r3 : Run)
    (hdir : o.IsDir = false) (hc : 1 ≤ cfg.Concurrency)
    (htask : fetchTask w cfg dest r.nTask o (r.addTotal.startTask o.Key) = (r3, false)) :
    objectsLoop w cfg dest (o :: rest) r = objectsLoop w cfg dest rest r3 := by
  rw [objectsLoop_cons_file w cfg dest o rest r (by simp [hdir]) (by omega), htask]

/-- `ListObjects` on a channel that yields fewer than `limit` elements, none an
error: all entries and the empty marker. -/
theorem ListObjects_short (raw : List RawObject)
    (hlen : raw.length < limit) (herr : ∀ o ∈ raw, o.Err = none) :
    ListObjects raw = .ok (raw.map entryOf, "") := by
  simp only [ListObjects, listCollect_ok raw [] "" herr, List.nil_append, List.length_map, hlen,
    if_true]
  split <;> rfl

/-- The objects loop on a page of one entry that is present locally and one that is
absent and fetched with success after `k` failed attempts, in either order: `Total`
and `Finished` go up by two. -/
theorem objectsLoop_present_and_fetched (w : World) (cfg : Config) (dest : String)
    (x y : ObjectInfo) (k : Nat) (r : Run) (list : List ObjectInfo)
    (hc : 1 ≤ cfg.Concurrency) (hk : (k : Int) ≤ cfg.MaxRetries)
    (hctx : ∀ t, w.ctxDone t = false)
    (hx : x.IsDir = false) (hy : y.IsDir = false)
    (hlist : list = [x, y] ∨ list = [y, x])
    (hxp : ∀ t, w.stat t (w.join dest x.Key) = some x.Size)
    (hya : ∀ t, w.stat t (w.join dest y.Key) ≠ some y.Size)
    (hydir : ∀ t, ∀ a ≤ k, EnsureDir w t a (w.join dest y.Key) = none)
    (hyfail : ∀ t, ∀ a < k, Download w t a y.Key (w.join dest y.Key) ≠ none)
    (hyok : ∀ t, Download w t k y.Key (w.join dest y.Key) = none) :
    ∃ r1, objectsLoop w cfg dest list r = (r1, Exit.normal) ∧
      r1.status = { r.status with Total := r.status.Total + 2,
                                  Finished := r.status.Finished + 2 } ∧
      r1.nList = r.nList := by
  rcases hlist with rfl | rfl
  · have h1 := fetchTask_present w cfg dest r.nTask x (r.addTotal.startTask x.Key)
      (hctx _) (hxp _)
    rw [objectsLoop_cons_task w cfg dest x [y] r _ hx hc h1]
    obtain ⟨r2, h2, s2, -, l2, -⟩ := fetchTask_success w cfg dest
      (r.addTotal.startTask x.Key).addFinished.nTask y
      ((r.addTotal.startTask x.Key).addFinished.addTotal.startTask y.Key) k hk
      (hctx _) (hya _) (hydir _) (hyfail _) (hyok _)
    rw [objectsLoop_cons_task w cfg dest y [] _ _ hy hc h2]
    refine ⟨r2, by simp [objectsLoop], ?_, ?_⟩
    · rw [s2]; simp [Run.addTotal, Run.startTask, Run.addFinished]
    · rw [l2]; rfl
  · obtain ⟨r2, h2, s2, -, l2, t2⟩ := fetchTask_success w cfg dest r.nTask y
      (r.addTotal.startTask y.Key) k hk (hctx _) (hya _) (hydir _) (hyfail _) (hyok _)
    rw [objectsLoop_cons_task w cfg dest y [x] r _ hy hc h2]
    have h1 := fetchTask_present w cfg dest r2.nTask x (r2.addTotal.startTask x.Key)
      (hctx _) (hxp _)
    rw [objectsLoop_cons_task w cfg dest x [] _ _ hx hc h1]
    refine ⟨(r2.addTotal.startTask x.Key).addFinished, by simp [objectsLoop], ?_, ?_⟩
    · simp [Run.addTotal, Run.startTask, Run.addFinished, s2]
    · simpa [Run.addTotal, Run.startTask, Run.addFinished] using l2

/-- The objects loop on a page of one entry whose every fetch attempt fails: `Total`
and `Failed` go up by one. -/
theorem objectsLoop_failing (w : World) (cfg : Config) (dest : String)
    (z : ObjectInfo) (r : Run)
    (hc : 1 ≤ cfg.Concurrency) (hmax : 0 ≤ cfg.MaxRetries)
    (hctx : ∀ t, w.ctxDone t = false) (hz : z.IsDir = false)
    (hza : ∀ t, w.stat t (w.join dest z.Key) ≠ some z.Size)
    (hzf : ∀ t a, attemptError w t a z.Key (w.join dest z.Key) ≠ none) :
    ∃ r1, objectsLoop w cfg dest [z] r = (r1, Exit.normal) ∧
      r1.status.Total = r.status.Total + 1 ∧
      r1.status.Finished = r.status.Finished ∧
      r1.status.Failed = r.status.Failed + 1 ∧
      r1.status.Running = r.status.Running := by
  obtain ⟨r2, msg, h2, -, s2, -, -, -⟩ := fetchTask_exhausted w cfg dest r.nTask z
    (r.addTotal.startTask z.Key) hmax (hctx _) (hza _) (fun a _ => hzf _ a)
  rw [objectsLoop_cons_task w cfg dest z [] r _ hz hc h2]
  refine ⟨r2, by simp [objectsLoop], ?_, ?_, ?_, ?_⟩ <;>
    simp [s2, Run.addTotal, Run.startTask]

/-- C8 (amended). The end-to-end run over the prefixes `a/` and `b/`, not
cancelled and without listing error: `a/` lists two objects (in either order), one
present locally with the listed size, the other absent and fetched with success
after `k <= MaxRetries` failed attempts; `b/` lists one absent object whose every
attempt fails.  `Worker` returns normally with `Total = 3`, `Finished = 2`,
`Failed = 1`, `Running = false`. -/
theorem Worker_end_to_end (fuel : Nat) (w : World) (cfg : Config) (dest : String)
    (x y z : RawObject) (k : Nat)
    (hfuel : 1 ≤ fuel) (hc : 1 ≤ cfg.Concurrency) (hk : (k : Int) ≤ cfg.MaxRetries)
    (hctx : ∀ t, w.ctxDone t = false)
    (hx : x.Err = none ∧ hasSuffix x.Key "/" = false)
    (hy : y.Err = none ∧ hasSuffix y.Key "/" = false)
    (hz : z.Err = none ∧ hasSuffix z.Key "/" = false)
    (ha : w.listing 0 "a/" "" = [x, y] ∨ w.listing 0 "a/" "" = [y, x])
    (hb : w.listing 1 "b/" "" = [z])
    (hxp : ∀ t, w.stat t (w.join dest x.Key) = some x.Size)
    (hya : ∀ t, w.stat t (w.join dest y.Key) ≠ some y.Size)
    (hydir : ∀ t, ∀ a ≤ k, EnsureDir w t a (w.join dest y.Key) = none)
    (hyfail : ∀ t, ∀ a < k, Download w t a y.Key (w.join dest y.Key) ≠ none)
    (hyok : ∀ t, Download w t k y.Key (w.join dest y.Key) = none)
    (hza : ∀ t, w.stat t (w.join dest z.Key) ≠ some z.Size)
    (hzf : ∀ t a, attemptError w t a z.Key (w.join dest z.Key) ≠ none) :
    ∃ r, Worker fuel w cfg ["a/", "b/"] dest zeroStatus = some (r, Exit.normal) ∧
      r.status.Total = 3 ∧ r.status.Finished = 2 ∧ r.status.Failed = 1 ∧
      r.status.Running = false := by
  obtain ⟨fuel, rfl⟩ : ∃ f, fuel = f + 1 := ⟨fuel - 1, by omega⟩
  have hmax : 0 ≤ cfg.MaxRetries := by omega
  -- the page of `a/`
  obtain ⟨la, hla, hperm⟩ : ∃ la, ListObjects (w.listing 0 "a/" "") = .ok (la, "") ∧
      (la = [entryOf x, entryOf y] ∨ la = [entryOf y, entryOf x]) := by
    rcases ha with h | h
    · exact ⟨_, by rw [h]; exact ListObjects_short _ (by simp [limit]) (by simp [hx.1, hy.1]),
        Or.inl rfl⟩
    · exact ⟨_, by rw [h]; exact ListObjects_short _ (by simp [limit]) (by simp [hx.1, hy.1]),
        Or.inr rfl⟩
  have hlb : ListObjects (w.listing 1 "b/" "") = .ok ([entryOf z], "") := by
    rw [hb]; exact ListObjects_short _ (by simp [limit]) (by simp [hz.1])
  obtain ⟨r1, o1, s1, l1⟩ := objectsLoop_present_and_fetched w cfg dest (entryOf x) (entryOf y) k
    ((WorkerEntry zeroStatus).listed "a/" "") la hc hk hctx
    (by simp [entryOf, hx.2]) (by simp [entryOf, hy.2]) hperm hxp hya hydir hyfail hyok
  have hn1 : r1.nList = 1 := by rw [l1]; rfl
  obtain ⟨r2, o2, t2, f2, g2, u2⟩ := objectsLoop_failing w cfg dest (entryOf z)
    (r1.listed "b/" "") hc hmax hctx (by simp [entryOf, hz.2]) hza hzf
  have pa : pageLoop w cfg dest "a/" (fuel + 1) "" (WorkerEntry zeroStatus) =
      some (r1, Exit.normal) := by
    rw [pageLoop_ok w cfg dest "a/" fuel "" _ la "" hla, o1]; simp
  have pb : pageLoop w cfg dest "b/" (fuel + 1) "" r1 = some (r2, Exit.normal) := by
    rw [pageLoop_ok w cfg dest "b/" fuel "" _ [entryOf z] "" (by rw [hn1]; exact hlb), o2]; simp
  refine ⟨r2.setRunning false, ?_, ?_, ?_, ?_, ?_⟩
  · have : ¬ cfg.Concurrency < 0 := by omega
    simp [Worker, this, prefixLoop, pa, pb]
  · simp [Run.setRunning, t2, s1, Run.listed, WorkerEntry, zeroStatus]
  · simp [Run.setRunning, f2, s1, Run.listed, WorkerEntry, zeroStatus]
  · simp [Run.setRunning, g2, s1, Run.listed, WorkerEntry, zeroStatus]
  · simp [Run.setRunning]

/-- Instance of C1: `a/y` fetched by task 0 in a world where its transfer fails
twice and then succeeds, with 3 retries allowed: three `Download` calls and
`Finished` one higher. -/
theorem fetchTask_retry_then_success_witness :
    (fetchTask (scenarioWorld 2 false) defaultConfig "data" 0 (entryOf rawY)
        (WorkerEntry zeroStatus)).2 = false ∧
    downloadCalls (fetchTask (scenarioWorld 2 false) defaultConfig "data" 0 (entryOf rawY)
        (WorkerEntry zeroStatus)).1.trace = downloadCalls (WorkerEntry zeroStatus).trace + (2 + 1) ∧
    (fetchTask (scenarioWorld 2 false) defaultConfig "data" 0 (entryOf rawY)
        (WorkerEntry zeroStatus)).1.status =
      { (WorkerEntry zeroStatus).status with
          Finished := (WorkerEntry zeroStatus).status.Finished + 1 } :=
  fetchTask_retry_then_success (scenarioWorld 2 false) defaultConfig "data" 0 (entryOf rawY)
    (WorkerEntry zeroStatus) 2 (by decide) (by decide) (by decide) (by decide) (by decide)
    (by decide)

/-- Instance of C2: `b/z` fetched by task 0 in a world where its transfer always
fails, with 3 retries allowed: four attempts, `Failed` one higher and the last
error in `LastError`. -/
theorem fetchTask_retries_exhausted_witness :
    (fetchTask (scenarioWorld 0 false) defaultConfig "data" 0 (entryOf rawZ)
        (WorkerEntry zeroStatus)).2 = false ∧
    (attempts (fetchTask (scenarioWorld 0 false) defaultConfig "data" 0 (entryOf rawZ)
        (WorkerEntry zeroStatus)).1.trace : Int) =
      attempts (WorkerEntry zeroStatus).trace + (defaultConfig.MaxRetries + 1) ∧
    some (fetchTask (scenarioWorld 0 false) defaultConfig "data" 0 (entryOf rawZ)
        (WorkerEntry zeroStatus)).1.status.LastError =
      attemptError (scenarioWorld 0 false) 0 defaultConfig.MaxRetries.toNat (entryOf rawZ).Key
        ((scenarioWorld 0 false).join "data" (entryOf rawZ).Key) ∧
    (fetchTask (scenarioWorld 0 false) defaultConfig "data" 0 (entryOf rawZ)
        (WorkerEntry zeroStatus)).1.status =
      { (WorkerEntry zeroStatus).status with
          Failed := (WorkerEntry zeroStatus).status.Failed + 1,
          LastError := (fetchTask (scenarioWorld 0 false) defaultConfig "data" 0 (entryOf rawZ)
            (WorkerEntry zeroStatus)).1.status.LastError } :=
  fetchTask_retries_exhausted (scenarioWorld 0 false) defaultConfig "data" 0 (entryOf rawZ)
    (WorkerEntry zeroStatus) (by decide) (by decide) (by decide)
    (fun a _ => by simp [attemptError, EnsureDir, Download, scenarioWorld, entryOf, rawZ])

/-- Instance of C4: a run over `a/` and `b/` in the world where the three objects
are already mirrored locally. -/
theorem Worker_second_run_witness :
    ∃ r, Worker 1 mirroredWorld defaultConfig ["a/", "b/"] "data" zeroStatus =
        some (r, Exit.normal) ∧
      r.status.Finished = r.status.Total ∧
      r.status.Total =
        nonDirsAll [[([entryOf rawX, entryOf rawY], "")], [([entryOf rawZ], "")]] ∧
      r.status.Failed = 0 ∧
      r.status.Running = false ∧
      downloadCalls r.trace = 0 :=
  Worker_second_run 1 mirroredWorld defaultConfig ["a/", "b/"] "data"
    [[([entryOf rawX, entryOf rawY], "")], [([entryOf rawZ], "")]]
    (by decide) (fun _ => rfl)
    ⟨⟨rfl, rfl⟩, ⟨rfl, rfl⟩, trivial⟩
    (by decide)
    (by
      intro ps hps p hp o ho hd t
      simp only [List.mem_cons, List.mem_singleton, List.not_mem_nil, or_false] at hps
      rcases hps with rfl | rfl
      · simp only [List.mem_singleton] at hp
        subst hp
        simp only [List.mem_cons, List.mem_singleton, List.not_mem_nil, or_false] at ho
        rcases ho with rfl | rfl <;> rfl
      · simp only [List.mem_singleton] at hp
        subst hp
        simp only [List.mem_singleton] at ho
        subst ho
        rfl)

/-- No key `p/k...k` ends in a slash. -/
theorem rawK_not_dir (i : Nat) : hasSuffix (rawK i).Key "/" = false := by
  have h : ∀ n : Nat, ['/'].isPrefixOf (List.replicate n 'k' ++ ['k', '/', 'p']) = false := by
    intro n
    cases n with
    | zero => rfl
    | succ n => simp [List.replicate_succ, List.isPrefixOf]
  simpa [hasSuffix, rawK, List.isSuffixOf, List.replicate_succ] using h i

/-- No key `p/k...k` is empty. -/
theorem rawK_key_ne (i : Nat) : (rawK i).Key ≠ "" := by
  intro h
  have := congrArg String.data h
  simp [rawK] at this

/-- Instance of C5: the store with exactly the thousand objects `p/k`, ..., and, for
the general part, the page chain of `a/` in the scenario world. -/
theorem pageLoop_terminates_witness :
    (ListObjects (thousandWorld.listing (WorkerEntry zeroStatus).nList "p/" "") =
        .ok (thousand.map entryOf, (rawK 999).Key) ∧
      (thousand.map entryOf).length = 1000 ∧
      ListObjects (thousandWorld.listing ((WorkerEntry zeroStatus).nList + 1) "p/"
        (rawK 999).Key) = .ok ([], "") ∧
      ∃ r1, pageLoop thousandWorld defaultConfig "data" "p/" 2 "" (WorkerEntry zeroStatus) =
          some (r1, Exit.normal) ∧
        listCalls r1.trace = listCalls (WorkerEntry zeroStatus).trace + 2 ∧
        r1.status.Total = (WorkerEntry zeroStatus).status.Total + 1000) ∧
    (∃ r1, pageLoop (scenarioWorld 0 false) defaultConfig "data" "a/" 1 ""
          (WorkerEntry zeroStatus) = some (r1, Exit.normal) ∧
        listCalls r1.trace = listCalls (WorkerEntry zeroStatus).trace +
          [([entryOf rawX, entryOf rawY], "")].length ∧
        r1.status.Total = (WorkerEntry zeroStatus).status.Total +
          nonDirsPages [([entryOf rawX, entryOf rawY], "")]) :=
  ⟨(pageLoop_terminates thousandWorld defaultConfig "data" "p/" (by decide) (by decide)).1
      thousand (rawK 999) (WorkerEntry zeroStatus) 2
      (by simp [thousand])
      (by
        intro o ho
        simp only [thousand, List.mem_append, List.mem_map, List.mem_singleton] at ho
        rcases ho with ⟨i, -, rfl⟩ | rfl
        · exact ⟨rfl, rawK_not_dir i⟩
        · exact ⟨rfl, rawK_not_dir 999⟩)
      (by simp [thousand])
      (rawK_key_ne 999)
      rfl
      (by simp [thousandWorld, rawK_key_ne])
      (le_refl 2),
   (pageLoop_terminates (scenarioWorld 0 false) defaultConfig "data" "a/" (by decide)
      (by decide)).2
      [([entryOf rawX, entryOf rawY], "")] "" (WorkerEntry zeroStatus) 1
      ⟨rfl, rfl⟩ (le_refl 1)⟩

/-- C8, as stated, fails.  In the scenario (prefixes `a/`, `b/`; `a/x` present
locally with its size, `a/y` absent, `b/z` failing on every attempt; nothing
cancelled, no listing error) the run ends with `Total = 3`, `Finished = 2`,
`Failed = 1` when the transfer of `a/y` succeeds, and with `Total = 3`,
`Finished = 1`, `Failed = 2` when it fails on every attempt: never with
`Finished = 1` and `Failed = 1`. -/
theorem Worker_end_to_end_counterexample :
    ((Worker 1 (scenarioWorld 0 false) defaultConfig ["a/", "b/"] "data" zeroStatus).map
        (fun res => (res.1.status, res.2)) =
      some ({ Total := 3, Finished := 2, Failed := 1, Running := false, LastError := "boom" },
        Exit.normal)) ∧
    ((Worker 1 (scenarioWorld 0 true) defaultConfig ["a/", "b/"] "data" zeroStatus).map
        (fun res => (res.1.status, res.2)) =
      some ({ Total := 3, Finished := 1, Failed := 2, Running := false, LastError := "boom" },
        Exit.normal)) ∧
    ¬ (∀ broken r e,
        Worker 1 (scenarioWorld 0 broken) defaultConfig ["a/", "b/"] "data" zeroStatus =
          some (r, e) →
        r.status.Total = 3 ∧ r.status.Finished = 1 ∧ r.status.Failed = 1 ∧
          r.status.Running = false) := by
  have h1 : (Worker 1 (scenarioWorld 0 false) defaultConfig ["a/", "b/"] "data" zeroStatus).map
        (fun res => (res.1.status, res.2)) =
      some ({ Total := 3, Finished := 2, Failed := 1, Running := false, LastError := "boom" },
        Exit.normal) := by decide
  refine ⟨h1, by decide, ?_⟩
  intro hall
  cases hw : Worker 1 (scenarioWorld 0 false) defaultConfig ["a/", "b/"] "data" zeroStatus with
  | none => rw [hw] at h1; simp at h1
  | some res =>
    obtain ⟨r, e⟩ := res
    rw [hw] at h1
    simp only [Option.map_some', Option.some.injEq, Prod.mk.injEq] at h1
    have := (hall false r e hw).2.1
    rw [h1.1] at this
    exact absurd this (by decide)

/-- Instance of C8 (amended): the scenario world in which the transfer of `a/y`
succeeds at once. -/
theorem Worker_end_to_end_witness :
    ∃ r, Worker 1 (scenarioWorld 0 false) defaultConfig ["a/", "b/"] "data" zeroStatus =
        some (r, Exit.normal) ∧
      r.status.Total = 3 ∧ r.status.Finished = 2 ∧ r.status.Failed = 1 ∧
      r.status.Running = false :=
  Worker_end_to_end 1 (scenarioWorld 0 false) defaultConfig "data" rawX rawY rawZ 0
    (le_refl 1) (by decide) (by decide) (fun _ => rfl)
    (by decide) (by decide) (by decide) (Or.inl rfl) rfl
    (fun _ => rfl) (fun _ => by simp only [scenarioWorld]; decide) (fun _ _ _ => rfl)
    (fun _ a h => absurd h (Nat.not_lt_zero a))
    (fun _ => rfl) (fun _ => by simp only [scenarioWorld]; decide)
    (fun t a => by simp [attemptError, EnsureDir, Download, scenarioWorld, rawZ])

/-- Counting after replacing one element of a list. -/
theorem countP_set_balance {α : Type} (p : α → Bool) :
    ∀ (l : List α) (i : Nat) (a b : α), l[i]? = some a →
      (l.set i b).countP p + (if p a then 1 else 0) =
        l.countP p + (if p b then 1 else 0) := by
  intro l
  induction l with
  | nil => intro i a b h; simp at h
  | cons x xs ih =>
    intro i a b h
    cases i with
    | zero =>
      simp only [List.getElem?_cons_zero, Option.some.injEq] at h
      subst h
      simp only [List.set_cons_zero, List.countP_cons]
      omega
    | succ i =>
      simp only [List.getElem?_cons_succ] at h
      have := ih i a b h
      simp only [List.set_cons_succ, List.countP_cons]
      omega

/-- The tasks in flight after a step of task `i` from `pc` to `pc1`. -/
theorem inFlight_set (tasks : List (ObjectInfo × TaskPc)) (i : Nat) (o : ObjectInfo)
    (pc pc1 : TaskPc) (h : tasks[i]? = some (o, pc)) (a b : Nat)
    (ha : (if pc.inFlight then 1 else 0) = a) (hb : (if pc1.inFlight then 1 else 0) = b) :
    List.countP (fun t : ObjectInfo × TaskPc => t.2.inFlight) (tasks.set i (o, pc1)) + a =
      List.countP (fun t : ObjectInfo × TaskPc => t.2.inFlight) tasks + b := by
  subst ha hb
  exact countP_set_balance (fun t : ObjectInfo × TaskPc => t.2.inFlight) tasks i (o, pc)
    (o, pc1) h

/-- The pending tasks after a step of task `i` from `pc` to `pc1`. -/
theorem pending_set (tasks : List (ObjectInfo × TaskPc)) (i : Nat) (o : ObjectInfo)
    (pc pc1 : TaskPc) (h : tasks[i]? = some (o, pc)) (a b : Nat)
    (ha : (if pc.pending then 1 else 0) = a) (hb : (if pc1.pending then 1 else 0) = b) :
    List.countP (fun t : ObjectInfo × TaskPc => t.2.pending) (tasks.set i (o, pc1)) + a =
      List.countP (fun t : ObjectInfo × TaskPc => t.2.pending) tasks + b := by
  subst ha hb
  exact countP_set_balance (fun t : ObjectInfo × TaskPc => t.2.pending) tasks i (o, pc)
    (o, pc1) h

/-- At the head of the loop over the prefixes no slot is held by `Worker`. -/
theorem nextPrefix_holding (l : List String) : (nextPrefix l).holding = 0 := by
  cases l <;> rfl

/-- At the head of the loop over the prefixes no entry is being dispatched. -/
theorem nextPrefix_counting (l : List String) : (nextPrefix l).counting = 0 := by
  cases l <;> rfl

/-- A step of the goroutine of `Worker` keeps the semaphore invariant. -/
theorem stepMain_semInv (cfg : Config) (s s1 : Machine) (raw : List RawObject)
    (hinv : SemInv cfg s) (h : stepMain cfg s raw = some s1) : SemInv cfg s1 := by
  obtain ⟨st, sem, wg, main, tasks, crashed, lists⟩ := s
  obtain ⟨h1, h2⟩ := hinv
  simp only [Machine.inFlight] at h1 h2
  cases main with
  | entry prefixes =>
    simp only [stepMain, Option.some.injEq] at h
    subst h
    exact ⟨h1, h2⟩
  | making prefixes =>
    simp only [stepMain] at h
    split at h <;> simp only [Option.some.injEq] at h <;> subst h
    · exact ⟨h1, h2⟩
    · refine ⟨?_, h2⟩
      show sem = List.countP (fun t => t.2.inFlight) tasks + (nextPrefix prefixes).holding
      rw [nextPrefix_holding]; exact h1
  | erred =>
    simp only [stepMain, Option.some.injEq] at h
    subst h
    exact ⟨h1, h2⟩
  | listing pfx marker rest =>
    simp only [stepMain] at h
    split at h <;> simp only [Option.some.injEq] at h <;> subst h <;> exact ⟨h1, h2⟩
  | ranging c =>
    simp only [stepMain] at h
    split at h <;> split at h <;> simp only [Option.some.injEq] at h <;> subst h
    · refine ⟨?_, h2⟩
      show sem = List.countP (fun t => t.2.inFlight) tasks + (nextPrefix c.rest).holding
      rw [nextPrefix_holding]; exact h1
    · exact ⟨h1, h2⟩
    · exact ⟨h1, h2⟩
    · exact ⟨h1, h2⟩
  | counted o c =>
    simp only [stepMain] at h
    split at h
    · simp only [Option.some.injEq] at h
      subst h
      rename_i hroom
      simp only [MainPc.holding] at h1
      refine ⟨?_, Or.inr ?_⟩
      · simp only [Machine.inFlight, MainPc.holding]; omega
      · simp only at hroom ⊢; omega
    · simp at h
  | acquired o c =>
    simp only [stepMain, Option.some.injEq] at h
    subst h
    refine ⟨?_, h2⟩
    simp only [Machine.inFlight, MainPc.holding, List.countP_append, List.countP_cons,
      List.countP_nil, TaskPc.inFlight] at h1 ⊢
    simpa using h1
  | waiting =>
    simp only [stepMain] at h
    split at h
    · simp only [Option.some.injEq] at h
      subst h
      exact ⟨h1, h2⟩
    · simp at h
  | returned => simp [stepMain] at h

/-- A step of a fetch goroutine keeps the semaphore invariant. -/
theorem stepTask_semInv (cfg : Config) (s s1 : Machine) (i : Nat) (ans : TaskAnswer)
    (hinv : SemInv cfg s) (h : stepTask cfg s i ans = some s1) : SemInv cfg s1 := by
  obtain ⟨st, sem, wg, main, tasks, crashed, lists⟩ := s
  obtain ⟨h1, h2⟩ := hinv
  simp only [Machine.inFlight] at h1 h2
  unfold stepTask at h
  simp only at h
  cases ht : tasks[i]? with
  | none => rw [ht] at h; simp at h
  | some t =>
    obtain ⟨o, pc⟩ := t
    rw [ht] at h
    cases pc with
    | started =>
      simp only at h
      split at h <;> simp only [Option.some.injEq] at h <;> subst h
      · have := inFlight_set tasks i o _ .exiting ht 1 1 rfl rfl
        exact ⟨by simp only [Machine.inFlight, Machine.setTask]; omega, h2⟩
      · have := inFlight_set tasks i o _ .checked ht 1 1 rfl rfl
        exact ⟨by simp only [Machine.inFlight, Machine.setTask]; omega, h2⟩
    | checked =>
      simp only at h
      split at h <;> simp only [Option.some.injEq] at h <;> subst h
      · have := inFlight_set tasks i o _ .exiting ht 1 1 rfl rfl
        exact ⟨by simp only [Machine.inFlight, Machine.setTask]; omega, h2⟩
      · have := inFlight_set tasks i o _ (.retrying 0 none) ht 1 1 rfl rfl
        exact ⟨by simp only [Machine.inFlight, Machine.setTask]; omega, h2⟩
    | retrying attempt dlErr =>
      simp only at h
      split at h
      · split at h
        · simp only [Option.some.injEq] at h; subst h
          rename_i err _
          have := inFlight_set tasks i o _ (.retrying (attempt + 1) (some err)) ht 1 1 rfl rfl
          exact ⟨by simp only [Machine.inFlight, Machine.setTask]; omega, h2⟩
        · split at h <;> simp only [Option.some.injEq] at h <;> subst h
          · have := inFlight_set tasks i o _ .exiting ht 1 1 rfl rfl
            exact ⟨by simp only [Machine.inFlight, Machine.setTask]; omega, h2⟩
          · rename_i err _
            have := inFlight_set tasks i o _ (.retrying (attempt + 1) (some err)) ht 1 1 rfl rfl
            exact ⟨by simp only [Machine.inFlight, Machine.setTask]; omega, h2⟩
      · simp only [Option.some.injEq] at h; subst h
        have := inFlight_set tasks i o _ (.failing dlErr) ht 1 1 rfl rfl
        exact ⟨by simp only [Machine.inFlight, Machine.setTask]; omega, h2⟩
    | failing dlErr =>
      simp only at h
      split at h <;> simp only [Option.some.injEq] at h <;> subst h
      · exact ⟨h1, h2⟩
      · have := inFlight_set tasks i o _ .exiting ht 1 1 rfl rfl
        exact ⟨by simp only [Machine.inFlight, Machine.setTask]; omega, h2⟩
    | exiting =>
      simp only at h
      split at h
      · simp only [Option.some.injEq] at h; subst h
        rename_i hpos
        have := inFlight_set tasks i o _ .released ht 1 0 rfl rfl
        refine ⟨by simp only [Machine.inFlight, Machine.setTask]; omega, ?_⟩
        simp only [Machine.setTask]
        rcases h2 with h2 | h2
        · omega
        · right; omega
      · simp at h
    | released =>
      simp only at h
      split at h <;> simp only [Option.some.injEq] at h <;> subst h
      · have := inFlight_set tasks i o _ .done ht 0 0 rfl rfl
        exact ⟨by simp only [Machine.inFlight, Machine.setTask]; omega, h2⟩
      · exact ⟨h1, h2⟩
    | done => simp at h

/-- A step of the goroutine of `Worker` keeps the counter invariant. -/
theorem stepMain_countInv (cfg : Config) (s s1 : Machine) (raw : List RawObject)
    (hinv : CountInv s) (h : stepMain cfg s raw = some s1) : CountInv s1 := by
  obtain ⟨st, sem, wg, main, tasks, crashed, lists⟩ := s
  simp only [CountInv, Machine.pending] at hinv
  cases main with
  | entry prefixes =>
    simp only [stepMain, Option.some.injEq] at h
    subst h
    exact hinv
  | making prefixes =>
    simp only [stepMain] at h
    split at h <;> simp only [Option.some.injEq] at h <;> subst h
    · exact hinv
    · show st.Finished + st.Failed + List.countP (fun t => t.2.pending) tasks +
        (nextPrefix prefixes).counting ≤ st.Total
      rw [nextPrefix_counting]; simpa [MainPc.counting] using hinv
  | erred =>
    simp only [stepMain, Option.some.injEq] at h
    subst h
    exact hinv
  | listing pfx marker rest =>
    simp only [stepMain] at h
    split at h <;> simp only [Option.some.injEq] at h <;> subst h <;> exact hinv
  | ranging c =>
    simp only [stepMain] at h
    simp only [MainPc.counting] at hinv
    split at h <;> split at h <;> simp only [Option.some.injEq] at h <;> subst h
    · show st.Finished + st.Failed + List.countP (fun t => t.2.pending) tasks +
        (nextPrefix c.rest).counting ≤ st.Total
      rw [nextPrefix_counting]; exact hinv
    · exact hinv
    · exact hinv
    · simp only [CountInv, Machine.pending, MainPc.counting]; omega
  | counted o c =>
    simp only [stepMain] at h
    split at h
    · simp only [Option.some.injEq] at h; subst h; exact hinv
    · simp at h
  | acquired o c =>
    simp only [stepMain, Option.some.injEq] at h
    subst h
    simp only [CountInv, Machine.pending, MainPc.counting, List.countP_append, List.countP_cons,
      List.countP_nil, TaskPc.pending] at hinv ⊢
    simpa using hinv
  | waiting =>
    simp only [stepMain] at h
    split at h
    · simp only [Option.some.injEq] at h; subst h; exact hinv
    · simp at h
  | returned => simp [stepMain] at h

/-- A step of a fetch goroutine keeps the counter invariant. -/
theorem stepTask_countInv (cfg : Config) (s s1 : Machine) (i : Nat) (ans : TaskAnswer)
    (hinv : CountInv s) (h : stepTask cfg s i ans = some s1) : CountInv s1 := by
  obtain ⟨st, sem, wg, main, tasks, crashed, lists⟩ := s
  simp only [CountInv, Machine.pending] at hinv
  unfold stepTask at h
  simp only at h
  cases ht : tasks[i]? with
  | none => rw [ht] at h; simp at h
  | some t =>
    obtain ⟨o, pc⟩ := t
    rw [ht] at h
    cases pc with
    | started =>
      simp only at h
      split at h <;> simp only [Option.some.injEq] at h <;> subst h
      · have := pending_set tasks i o _ .exiting ht 1 0 rfl rfl
        simp only [CountInv, Machine.pending, Machine.setTask]; omega
      · have := pending_set tasks i o _ .checked ht 1 1 rfl rfl
        simp only [CountInv, Machine.pending, Machine.setTask]; omega
    | checked =>
      simp only at h
      split at h <;> simp only [Option.some.injEq] at h <;> subst h
      · have := pending_set tasks i o _ .exiting ht 1 0 rfl rfl
        simp only [CountInv, Machine.pending, Machine.setTask]; omega
      · have := pending_set tasks i o _ (.retrying 0 none) ht 1 1 rfl rfl
        simp only [CountInv, Machine.pending, Machine.setTask]; omega
    | retrying attempt dlErr =>
      simp only at h
      split at h
      · split at h
        · simp only [Option.some.injEq] at h; subst h
          rename_i err _
          have := pending_set tasks i o _ (.retrying (attempt + 1) (some err)) ht 1 1 rfl rfl
          simp only [CountInv, Machine.pending, Machine.setTask]; omega
        · split at h <;> simp only [Option.some.injEq] at h <;> subst h
          · have := pending_set tasks i o _ .exiting ht 1 0 rfl rfl
            simp only [CountInv, Machine.pending, Machine.setTask]; omega
          · rename_i err _
            have := pending_set tasks i o _ (.retrying (attempt + 1) (some err)) ht 1 1 rfl rfl
            simp only [CountInv, Machine.pending, Machine.setTask]; omega
      · simp only [Option.some.injEq] at h; subst h
        have := pending_set tasks i o _ (.failing dlErr) ht 1 0 rfl rfl
        simp only [CountInv, Machine.pending, Machine.setTask]; omega
    | failing dlErr =>
      simp only at h
      split at h <;> simp only [Option.some.injEq] at h <;> subst h
      · exact hinv
      · have := pending_set tasks i o _ .exiting ht 0 0 rfl rfl
        simp only [CountInv, Machine.pending, Machine.setTask]; omega
    | exiting =>
      simp only at h
      split at h
      · simp only [Option.some.injEq] at h; subst h
        have := pending_set tasks i o _ .released ht 0 0 rfl rfl
        simp only [CountInv, Machine.pending, Machine.setTask]; omega
      · simp at h
    | released =>
      simp only at h
      split at h <;> simp only [Option.some.injEq] at h <;> subst h
      · have := pending_set tasks i o _ .done ht 0 0 rfl rfl
        simp only [CountInv, Machine.pending, Machine.setTask]; omega
      · exact hinv
    | done => simp at h

/-- Every step keeps the semaphore invariant. -/
theorem step_semInv (cfg : Config) (s s1 : Machine) (a : Action)
    (hinv : SemInv cfg s) (h : step cfg s a = some s1) : SemInv cfg s1 := by
  cases a with
  | main raw =>
    simp only [step] at h
    split at h
    · simp at h
    · exact stepMain_semInv cfg s s1 raw hinv h
  | task i ans =>
    simp only [step] at h
    split at h
    · simp at h
    · exact stepTask_semInv cfg s s1 i ans hinv h

/-- Every step keeps the counter invariant. -/
theorem step_countInv (cfg : Config) (s s1 : Machine) (a : Action)
    (hinv : CountInv s) (h : step cfg s a = some s1) : CountInv s1 := by
  cases a with
  | main raw =>
    simp only [step] at h
    split at h
    · simp at h
    · exact stepMain_countInv cfg s s1 raw hinv h
  | task i ans =>
    simp only [step] at h
    split at h
    · simp at h
    · exact stepTask_countInv cfg s s1 i ans hinv h

/-- An invariant of every step holds in every state a run reaches. -/
theorem exec_invariant (cfg : Config) (P : Machine → Prop)
    (hstep : ∀ s s1 a, P s → step cfg s a = some s1 → P s1) :
    ∀ (acts : List Action) (s s1 : Machine), P s → exec cfg acts s = some s1 → P s1 := by
  intro acts
  induction acts with
  | nil =>
    intro s s1 hP h
    simp only [exec, Option.some.injEq] at h
    exact h ▸ hP
  | cons a rest ih =>
    intro s s1 hP h
    simp only [exec] at h
    cases hs : step cfg s a with
    | none => rw [hs] at h; simp at h
    | some s2 =>
      rw [hs] at h
      exact ih s2 s1 (hstep s s2 a hP hs) h

/-- C3. In every state that a run of `Worker` reaches from a zeroed status, under
any interleaving of the goroutine of `Worker` with the fetch goroutines and any
answers of the outside world (listings, cancellation, local files, transfers),
`Finished + Failed <= Total`. -/
theorem Worker_finished_failed_le_total (cfg : Config) (prefixes : List String)
    (acts : List Action) (s : Machine)
    (h : exec cfg acts (Machine.init prefixes zeroStatus) = some s) :
    s.status.Finished + s.status.Failed ≤ s.status.Total := by
  have hinit : CountInv (Machine.init prefixes zeroStatus) := by
    simp [CountInv, Machine.init, Machine.pending, MainPc.counting, zeroStatus]
  have := exec_invariant cfg CountInv (fun s s1 a => step_countInv cfg s s1 a) acts _ s hinit h
  unfold CountInv at this
  omega

/-- C9. With `Concurrency = N >= 1`, in every state that a run of `Worker` reaches,
under any interleaving, any listings (any number of prefixes and objects) and any
answers of the outside world, at most `N` fetch tasks are in flight; the slots are
those of the one semaphore of the run. -/
theorem Worker_in_flight_le_concurrency (cfg : Config) (prefixes : List String)
    (status : JobStatus) (acts : List Action) (s : Machine)
    (hN : 1 ≤ cfg.Concurrency)
    (h : exec cfg acts (Machine.init prefixes status) = some s) :
    (s.inFlight : Int) ≤ cfg.Concurrency ∧ s.inFlight ≤ s.sem := by
  have hinit : SemInv cfg (Machine.init prefixes status) := by
    simp [SemInv, Machine.init, Machine.inFlight, MainPc.holding]
  obtain ⟨h1, h2⟩ :=
    exec_invariant cfg (SemInv cfg) (fun s s1 a => step_semInv cfg s s1 a) acts _ s hinit h
  constructor
  · rcases h2 with h2 | h2 <;> omega
  · omega

/-- A step of a fetch goroutine leaves alone everything that belongs to the goroutine
of `Worker`: where it stands, the listing calls made, the number of goroutines
started, `Total` and `Running`. -/
theorem stepTask_frame (cfg : Config) (s s1 : Machine) (i : Nat) (ans : TaskAnswer)
    (h : stepTask cfg s i ans = some s1) :
    s1.main = s.main ∧ s1.lists = s.lists ∧ s1.tasks.length = s.tasks.length ∧
    s1.status.Total = s.status.Total ∧ s1.status.Running = s.status.Running := by
  obtain ⟨st, sem, wg, main, tasks, crashed, lists⟩ := s
  unfold stepTask at h
  simp only at h
  cases ht : tasks[i]? with
  | none => rw [ht] at h; simp at h
  | some t =>
    obtain ⟨o, pc⟩ := t
    rw [ht] at h
    cases pc with
    | started =>
      simp only at h
      split at h <;> simp only [Option.some.injEq] at h <;> subst h <;>
        simp [Machine.setTask]
    | checked =>
      simp only at h
      split at h <;> simp only [Option.some.injEq] at h <;> subst h <;>
        simp [Machine.setTask]
    | retrying attempt dlErr =>
      simp only at h
      split at h
      · split at h
        · simp only [Option.some.injEq] at h; subst h; simp [Machine.setTask]
        · split at h <;> simp only [Option.some.injEq] at h <;> subst h <;>
            simp [Machine.setTask]
      · simp only [Option.some.injEq] at h; subst h; simp [Machine.setTask]
    | failing dlErr =>
      simp only at h
      split at h <;> simp only [Option.some.injEq] at h <;> subst h <;>
        simp [Machine.setTask]
    | exiting =>
      simp only at h
      split at h
      · simp only [Option.some.injEq] at h; subst h; simp [Machine.setTask]
      · simp at h
    | released =>
      simp only at h
      split at h <;> simp only [Option.some.injEq] at h <;> subst h <;>
        simp [Machine.setTask]
    | done => simp at h

/-- A step of a fetch goroutine can set `crashed`, never clear it. -/
theorem stepTask_crashed (cfg : Config) (s s1 : Machine) (i : Nat) (ans : TaskAnswer)
    (h : stepTask cfg s i ans = some s1) (hc : s1.crashed = false) : s.crashed = false := by
  obtain ⟨st, sem, wg, main, tasks, crashed, lists⟩ := s
  unfold stepTask at h
  simp only at h
  cases ht : tasks[i]? with
  | none => rw [ht] at h; simp at h
  | some t =>
    obtain ⟨o, pc⟩ := t
    rw [ht] at h
    cases pc with
    | started =>
      simp only at h
      split at h <;> simp only [Option.some.injEq] at h <;> subst h <;>
        simpa [Machine.setTask] using hc
    | checked =>
      simp only at h
      split at h <;> simp only [Option.some.injEq] at h <;> subst h <;>
        simpa [Machine.setTask] using hc
    | retrying attempt dlErr =>
      simp only at h
      split at h
      · split at h
        · simp only [Option.some.injEq] at h; subst h; simpa [Machine.setTask] using hc
        · split at h <;> simp only [Option.some.injEq] at h <;> subst h <;>
            simpa [Machine.setTask] using hc
      · simp only [Option.some.injEq] at h; subst h; simpa [Machine.setTask] using hc
    | failing dlErr =>
      simp only at h
      split at h <;> simp only [Option.some.injEq] at h <;> subst h
      · simp at hc
      · simpa [Machine.setTask] using hc
    | exiting =>
      simp only at h
      split at h
      · simp only [Option.some.injEq] at h; subst h; simpa [Machine.setTask] using hc
      · simp at h
    | released =>
      simp only at h
      split at h <;> simp only [Option.some.injEq] at h <;> subst h
      · simpa [Machine.setTask] using hc
      · simp at hc
    | done => simp at h

/-- The head of the loop over the prefixes is neither the entry nor the return. -/
theorem nextPrefix_inside (l : List String) :
    (∀ prefixes, nextPrefix l ≠ .entry prefixes) ∧ nextPrefix l ≠ .returned := by
  cases l <;> simp [nextPrefix]

/-- Every step keeps the invariant of `Running`. -/
theorem step_runningInv (cfg : Config) (s s1 : Machine) (a : Action)
    (hinv : RunningInv s) (h : step cfg s a = some s1) : RunningInv s1 := by
  cases a with
  | task i ans =>
    simp only [step] at h
    split at h
    · simp at h
    · obtain ⟨f1, -, -, -, f5⟩ := stepTask_frame cfg s s1 i ans h
      have fc := stepTask_crashed cfg s s1 i ans h
      obtain ⟨h1, h2⟩ := hinv
      refine ⟨fun hr => ?_, fun hc he hr => ?_⟩
      · rw [f5]; exact h1 (f1 ▸ hr)
      · rw [f5]; exact h2 (fc hc) (fun p => f1 ▸ he p) (f1 ▸ hr)
  | main raw =>
    simp only [step] at h
    split at h
    · simp at h
    · rename_i hcr
      obtain ⟨st, sem, wg, main, tasks, crashed, lists⟩ := s
      obtain ⟨h1, h2⟩ := hinv
      simp only at h1 h2 hcr
      have hcr2 : crashed = false := by simpa using hcr
      subst hcr2
      cases main with
      | entry prefixes =>
        simp only [stepMain, Option.some.injEq] at h
        subst h
        exact ⟨by simp, fun _ _ _ => rfl⟩
      | making prefixes =>
        have hrun : st.Running = true := h2 rfl (by simp) (by simp)
        simp only [stepMain] at h
        split at h <;> simp only [Option.some.injEq] at h <;> subst h
        · exact ⟨by simp, by simp⟩
        · refine ⟨fun hr => absurd hr (nextPrefix_inside prefixes).2, fun _ _ _ => hrun⟩
      | listing pfx marker rest =>
        have hrun : st.Running = true := h2 rfl (by simp) (by simp)
        simp only [stepMain] at h
        split at h <;> simp only [Option.some.injEq] at h <;> subst h
        · exact ⟨by simp, fun _ _ _ => hrun⟩
        · exact ⟨by simp, fun _ _ _ => hrun⟩
      | erred =>
        simp only [stepMain, Option.some.injEq] at h
        subst h
        exact ⟨fun _ => rfl, by simp⟩
      | ranging c =>
        have hrun : st.Running = true := h2 rfl (by simp) (by simp)
        simp only [stepMain] at h
        split at h <;> split at h <;> simp only [Option.some.injEq] at h <;> subst h
        · exact ⟨fun hr => absurd hr (nextPrefix_inside c.rest).2, fun _ _ _ => hrun⟩
        · exact ⟨by simp, fun _ _ _ => hrun⟩
        · exact ⟨by simp, fun _ _ _ => hrun⟩
        · exact ⟨by simp, fun _ _ _ => hrun⟩
      | counted o c =>
        have hrun : st.Running = true := h2 rfl (by simp) (by simp)
        simp only [stepMain] at h
        split at h
        · simp only [Option.some.injEq] at h; subst h
          exact ⟨by simp, fun _ _ _ => hrun⟩
        · simp at h
      | acquired o c =>
        have hrun : st.Running = true := h2 rfl (by simp) (by simp)
        simp only [stepMain, Option.some.injEq] at h
        subst h
        exact ⟨by simp, fun _ _ _ => hrun⟩
      | waiting =>
        simp only [stepMain] at h
        split at h
        · simp only [Option.some.injEq] at h; subst h
          exact ⟨fun _ => rfl, by simp⟩
        · simp at h
      | returned => simp [stepMain] at h

/-- Once the goroutine of `Worker` has left through the listing error, no step makes
a listing call or starts a goroutine, and `Total` stays. -/
theorem step_left (cfg : Config) (s s1 : Machine) (a : Action)
    (hl : Left s) (h : step cfg s a = some s1) :
    Left s1 ∧ s1.lists = s.lists ∧ s1.tasks.length = s.tasks.length ∧
    s1.status.Total = s.status.Total := by
  cases a with
  | task i ans =>
    simp only [step] at h
    split at h
    · simp at h
    · obtain ⟨f1, f2, f3, f4, f5⟩ := stepTask_frame cfg s s1 i ans h
      refine ⟨⟨?_, fun hr => ?_⟩, f2, f3, f4⟩
      · rw [f1]; exact hl.1
      · rw [f5]; exact hl.2 (f1 ▸ hr)
  | main raw =>
    simp only [step] at h
    split at h
    · simp at h
    · obtain ⟨st, sem, wg, main, tasks, crashed, lists⟩ := s
      obtain ⟨hl1, -⟩ := hl
      simp only at hl1
      rcases hl1 with rfl | rfl
      · simp only [stepMain, Option.some.injEq] at h
        subst h
        exact ⟨⟨Or.inr rfl, fun _ => rfl⟩, rfl, rfl, rfl⟩
      · simp [stepMain] at h

/-- The same for a whole continuation of the run. -/
theorem exec_left (cfg : Config) :
    ∀ (acts : List Action) (s s1 : Machine), Left s → exec cfg acts s = some s1 →
      Left s1 ∧ s1.lists = s.lists ∧ s1.tasks.length = s.tasks.length ∧
      s1.status.Total = s.status.Total := by
  intro acts
  induction acts with
  | nil =>
    intro s s1 hl h
    simp only [exec, Option.some.injEq] at h
    subst h
    exact ⟨hl, rfl, rfl, rfl⟩
  | cons a rest ih =>
    intro s s1 hl h
    simp only [exec] at h
    cases hs : step cfg s a with
    | none => rw [hs] at h; simp at h
    | some s2 =>
      rw [hs] at h
      obtain ⟨l2, a2, b2, c2⟩ := step_left cfg s s2 a hl hs
      obtain ⟨l3, a3, b3, c3⟩ := ih s2 s1 l2 h
      exact ⟨l3, a3.trans a2, b3.trans b2, c3.trans c2⟩

/-- The step of `Worker` at a failing `ListObjects` call. -/
theorem step_listing_error (cfg : Config) (s : Machine) (pfx marker : String)
    (rest : List String) (raw : List RawObject) (msg : String)
    (hm : s.main = .listing pfx marker rest) (hc : s.crashed = false)
    (herr : ListObjects raw = .error msg) :
    step cfg s (.main raw) =
      some { s with status := { s.status with LastError := msg }, lists := s.lists + 1,
                    main := .erred } := by
  obtain ⟨st, sem, wg, main, tasks, crashed, lists⟩ := s
  simp only at hm hc
  subst hm hc
  simp [step, stepMain, herr]

/-- The first step of `Worker`. -/
theorem step_entry (cfg : Config) (prefixes : List String) (status : JobStatus)
    (raw : List RawObject) :
    step cfg (Machine.init prefixes status) (.main raw) =
      some { Machine.init prefixes status with
        status := { status with Running := true }, main := .making prefixes } := by
  simp [step, Machine.init, stepMain]

/-- The step of `Worker` out of `wg.Wait()`. -/
theorem step_waiting (cfg : Config) (s : Machine) (raw : List RawObject)
    (hm : s.main = .waiting) (hc : s.crashed = false) (hw : s.wg = 0) :
    step cfg s (.main raw) =
      some { s with status := { s.status with Running := false }, main := .returned } := by
  obtain ⟨st, sem, wg, main, tasks, crashed, lists⟩ := s
  simp only at hm hc hw
  subst hm hc hw
  simp [step, stepMain]

/-- The step of `Worker` after it has recorded the listing error. -/
theorem step_erred (cfg : Config) (s : Machine) (raw : List RawObject)
    (hm : s.main = .erred) (hc : s.crashed = false) :
    step cfg s (.main raw) =
      some { s with status := { s.status with Running := false }, main := .returned } := by
  obtain ⟨st, sem, wg, main, tasks, crashed, lists⟩ := s
  simp only at hm hc
  subst hm hc
  simp [step, stepMain]

/-- C6. On the machine, for every interleaving of `Worker` with the fetch goroutines
and every answer of the outside world.
(1) The first step of `Worker` sets `Running` to true.
(2) In every state a run reaches: `Running` is false once `Worker` has returned,
whichever way it returned and whatever the goroutines still running do afterwards,
and it is true from the first step until the return (as long as no panic has ended
the process).
(3) Normal completion, which is also the exit of a cancelled run: when `wg.Wait()`
can return, the step of `Worker` returns with `Running` false.
(4) A `ListObjects` call that returns an error: the step of `Worker` sets `LastError`
to the message of the error and starts no goroutine; (5) its next step is the
return, with `Running` false, without waiting for the goroutines still running.
(6) However the run goes on after the failing call, `Worker` makes no further
listing call, starts no further fetch goroutine and counts no further entry: later
pages and later prefixes are not processed. -/
theorem Worker_running_and_listing_error (cfg : Config) :
    (∀ (prefixes : List String) (status : JobStatus) (raw : List RawObject),
      ∃ s1, step cfg (Machine.init prefixes status) (.main raw) = some s1 ∧
        s1.status.Running = true ∧ s1.main = .making prefixes) ∧
    (∀ (prefixes : List String) (status : JobStatus) (acts : List Action) (s : Machine),
      exec cfg acts (Machine.init prefixes status) = some s →
      (s.main = .returned → s.status.Running = false) ∧
      (s.crashed = false → (∀ p, s.main ≠ .entry p) → s.main ≠ .returned →
        s.status.Running = true)) ∧
    (∀ (s : Machine) (raw : List RawObject),
      s.main = .waiting → s.crashed = false → s.wg = 0 →
      ∃ s1, step cfg s (.main raw) = some s1 ∧ s1.main = .returned ∧
        s1.status.Running = false) ∧
    (∀ (s : Machine) (pfx marker : String) (rest : List String) (raw : List RawObject)
        (msg : String),
      s.main = .listing pfx marker rest → s.crashed = false → ListObjects raw = .error msg →
      ∃ s1, step cfg s (.main raw) = some s1 ∧ s1.main = .erred ∧
        s1.status.LastError = msg ∧ s1.lists = s.lists + 1 ∧ s1.tasks = s.tasks ∧
        s1.status.Total = s.status.Total) ∧
    (∀ (s : Machine) (raw : List RawObject),
      s.main = .erred → s.crashed = false →
      ∃ s1, step cfg s (.main raw) = some s1 ∧ s1.main = .returned ∧
        s1.status.Running = false ∧ s1.status.LastError = s.status.LastError ∧
        s1.lists = s.lists ∧ s1.tasks = s.tasks) ∧
    (∀ (s : Machine) (pfx marker : String) (rest : List String) (raw : List RawObject)
        (msg : String) (acts : List Action) (s2 : Machine),
      s.main = .listing pfx marker rest → ListObjects raw = .error msg →
      exec cfg (.main raw :: acts) s = some s2 →
      s2.lists = s.lists + 1 ∧ s2.tasks.length = s.tasks.length ∧
      s2.status.Total = s.status.Total ∧
      (s2.main = .erred ∨ s2.main = .returned) ∧
      (s2.main = .returned → s2.status.Running = false)) := by
  refine ⟨?_, ?_, ?_, ?_, ?_, ?_⟩
  · intro prefixes status raw
    exact ⟨_, step_entry cfg prefixes status raw, rfl, rfl⟩
  · intro prefixes status acts s h
    have hinit : RunningInv (Machine.init prefixes status) := by
      constructor
      · intro hr; simp [Machine.init] at hr
      · intro _ he _; exact absurd rfl (he prefixes)
    exact exec_invariant cfg RunningInv (fun s s1 a => step_runningInv cfg s s1 a) acts _ s
      hinit h
  · intro s raw hm hc hw
    exact ⟨_, step_waiting cfg s raw hm hc hw, rfl, rfl⟩
  · intro s pfx marker rest raw msg hm hc herr
    exact ⟨_, step_listing_error cfg s pfx marker rest raw msg hm hc herr, rfl, rfl, rfl, rfl,
      rfl⟩
  · intro s raw hm hc
    exact ⟨_, step_erred cfg s raw hm hc, rfl, rfl, rfl, rfl, rfl⟩
  · intro s pfx marker rest raw msg acts s2 hm herr h
    simp only [exec] at h
    cases hs : step cfg s (.main raw) with
    | none => rw [hs] at h; simp at h
    | some s1 =>
      rw [hs] at h
      have hc : s.crashed = false := by
        cases hcr : s.crashed with
        | false => rfl
        | true => simp [step, hcr] at hs
      rw [step_listing_error cfg s pfx marker rest raw msg hm hc herr] at hs
      simp only [Option.some.injEq] at hs
      subst hs
      obtain ⟨⟨l1, l2⟩, a, b, c⟩ := exec_left cfg acts _ s2
        ⟨Or.inl rfl, fun hr => by simp at hr⟩ h
      exact ⟨a, b, c, l1, l2⟩

/-- Instance of C6: a run over `a/` and `b/` in which the listing of `b/` fails while
the goroutine of `a/x` is still in flight.  `Worker` has returned with `Running`
false; the failing call set `LastError` to `503`; after it there was no listing call
(2 in all) and no goroutine was started (1 in all). -/
theorem Worker_running_and_listing_error_witness :
    ((erringFinal.main = .returned → erringFinal.status.Running = false) ∧
      (erringFinal.crashed = false → (∀ p, erringFinal.main ≠ .entry p) →
        erringFinal.main ≠ .returned → erringFinal.status.Running = true)) ∧
    (∃ s1, step twoSlots erringBefore (.main failingListing) = some s1 ∧ s1.main = .erred ∧
      s1.status.LastError = "503" ∧ s1.lists = erringBefore.lists + 1 ∧
      s1.tasks = erringBefore.tasks ∧ s1.status.Total = erringBefore.status.Total) ∧
    (erringFinal.lists = erringBefore.lists + 1 ∧
      erringFinal.tasks.length = erringBefore.tasks.length ∧
      erringFinal.status.Total = erringBefore.status.Total ∧
      (erringFinal.main = .erred ∨ erringFinal.main = .returned) ∧
      (erringFinal.main = .returned → erringFinal.status.Running = false)) :=
  ⟨(Worker_running_and_listing_error twoSlots).2.1 ["a/", "b/"] zeroStatus
      (erringStart ++ .main failingListing :: erringRest) erringFinal (by decide),
   (Worker_running_and_listing_error twoSlots).2.2.2.1 erringBefore "b/" "" []
      failingListing "503" rfl rfl rfl,
   (Worker_running_and_listing_error twoSlots).2.2.2.2.2 erringBefore "b/" "" []
      failingListing "503" erringRest erringFinal rfl rfl (by decide)⟩

/-- Instance of C3: the end of the demo run. -/
theorem Worker_finished_failed_le_total_witness :
    demoFinal.status.Finished + demoFinal.status.Failed ≤ demoFinal.status.Total :=
  Worker_finished_failed_le_total twoSlots ["a/"] (demoActions ++ demoRest) demoFinal
    (by decide)

/-- Instance of C9: the state of the demo run in which both slots are taken. -/
theorem Worker_in_flight_le_concurrency_witness :
    (demoState.inFlight : Int) ≤ twoSlots.Concurrency ∧ demoState.inFlight ≤ demoState.sem :=
  Worker_in_flight_le_concurrency twoSlots ["a/"] zeroStatus demoActions demoState
    (by decide) (by decide)

/-- Running two sequences of actions one after the other. -/
theorem exec_append (cfg : Config) :
    ∀ (a b : List Action) (s : Machine),
      exec cfg (a ++ b) s = (exec cfg a s).bind (exec cfg b) := by
  intro a
  induction a with
  | nil => intro b s; simp [exec]
  | cons x rest ih =>
    intro b s
    simp only [List.cons_append, exec]
    cases step cfg s x with
    | none => simp
    | some s1 => simpa using ih b s1

/-- Two runs compose. -/
theorem exec_trans (cfg : Config) (a b : List Action) (s s1 s2 : Machine)
    (h1 : exec cfg a s = some s1) (h2 : exec cfg b s1 = some s2) :
    exec cfg (a ++ b) s = some s2 := by
  rw [exec_append, h1]; simpa using h2

/-- Replacing the last element of a list. -/
theorem set_snoc {α : Type} (l : List α) (x y : α) : (l ++ [x]).set l.length y = l ++ [y] := by
  induction l with
  | nil => rfl
  | cons z zs ih => simp [ih]

/-- A step of the running goroutine in a state `atTask`. -/
theorem step_atTask (cfg : Config) (st : JobStatus) (main : MainPc)
    (ended : List (ObjectInfo × TaskPc)) (n : Nat) (o : ObjectInfo) (pc : TaskPc)
    (ans : TaskAnswer) :
    step cfg (Machine.atTask st main ended n o pc) (.task ended.length ans) =
      stepTask cfg (Machine.atTask st main ended n o pc) ended.length ans := by
  simp [step, Machine.atTask]

/-- The retry loop of the functional fetch task, replayed by the machine. -/
theorem retryLoop_replay (w : World) (cfg : Config) (t : Nat) (o : ObjectInfo) (loc : String)
    (main : MainPc) (ended : List (ObjectInfo × TaskPc)) (k : Nat) :
    ∀ (n a : Nat) (e : GoError) (r r1 : Run) (x : LoopExit),
      n = (cfg.MaxRetries + 1 - a).toNat →
      retryLoop w t o.Key loc n a e r = (r1, x) →
      ∃ acts, exec cfg acts (Machine.atTask r.status main ended k o (.retrying a e)) =
        some (match x with
          | .returned => Machine.atTask r1.status main ended k o .exiting
          | .fellThrough d => Machine.atTask r1.addFailed.status main ended k o (.failing d)) := by
  intro n
  induction n with
  | zero =>
    intro a e r r1 x han h
    simp only [retryLoop, Prod.mk.injEq] at h
    obtain ⟨rfl, rfl⟩ := h
    refine ⟨[.task ended.length (answerOf w t a o.Key loc)], ?_⟩
    have hgt : ¬ (a : Int) ≤ cfg.MaxRetries := by omega
    simp only [exec, step_atTask]
    simp [stepTask, Machine.atTask, hgt, Machine.setTask, set_snoc, Run.addFailed]
  | succ n ih =>
    intro a e r r1 x han h
    have hle : (a : Int) ≤ cfg.MaxRetries := by omega
    simp only [retryLoop] at h
    cases hd : EnsureDir w t a loc with
    | some err =>
      rw [hd] at h
      obtain ⟨acts, hacts⟩ := ih (a + 1) (some err) (r.log (.attempt t a)) r1 x
        (by omega) h
      refine ⟨.task ended.length (answerOf w t a o.Key loc) :: acts, ?_⟩
      simp only [exec, step_atTask]
      simp only [stepTask, Machine.atTask, List.getElem?_concat_length, hle, if_true, answerOf,
        hd, Machine.setTask, set_snoc]
      simpa [Machine.atTask, Run.log] using hacts
    | none =>
      rw [hd] at h
      cases hdl : Download w t a o.Key loc with
      | none =>
        rw [hdl] at h
        simp only [Prod.mk.injEq] at h
        obtain ⟨rfl, rfl⟩ := h
        refine ⟨[.task ended.length (answerOf w t a o.Key loc)], ?_⟩
        simp only [exec, step_atTask]
        simp [stepTask, Machine.atTask, hle, answerOf, hd, hdl, Machine.setTask, set_snoc,
          Run.addFinished, Run.log]
      | some err =>
        rw [hdl] at h
        obtain ⟨acts, hacts⟩ := ih (a + 1) (some err)
          ((r.log (.attempt t a)).log (.download t a o.Key loc (some err))) r1 x
          (by omega) h
        refine ⟨.task ended.length (answerOf w t a o.Key loc) :: acts, ?_⟩
        simp only [exec, step_atTask]
        simp only [stepTask, Machine.atTask, List.getElem?_concat_length, hle, if_true, answerOf,
          hd, hdl, Machine.setTask, set_snoc]
        simpa [Machine.atTask, Run.log] using hacts

/-- The end of a fetch goroutine, replayed by the machine: the deferred `<-sem` and
`wg.Done()`. -/
theorem exiting_replay (cfg : Config) (st : JobStatus) (main : MainPc)
    (ended : List (ObjectInfo × TaskPc)) (k : Nat) (o : ObjectInfo) (ans : TaskAnswer) :
    exec cfg [.task ended.length ans, .task ended.length ans]
        (Machine.atTask st main ended k o .exiting) =
      some (Machine.quiet st main (ended ++ [(o, .done)]) k) := by
  simp only [exec, step_atTask]
  simp [stepTask, Machine.atTask, Machine.setTask, set_snoc, step, Machine.quiet]

/-- The functional fetch task, replayed by the machine from the start of the
goroutine to its end. -/
theorem fetchTask_replay (w : World) (cfg : Config) (dest : String) (t : Nat) (o : ObjectInfo)
    (main : MainPc) (ended : List (ObjectInfo × TaskPc)) (k : Nat) (r r1 : Run)
    (h : fetchTask w cfg dest t o r = (r1, false)) :
    ∃ acts, exec cfg acts (Machine.atTask r.status main ended k o .started) =
      some (Machine.quiet r1.status main (ended ++ [(o, .done)]) k) := by
  have hexit := fun st => exiting_replay cfg st main ended k o (answerOf w t 0 o.Key (w.join dest o.Key))
  cases hc : w.ctxDone t with
  | true =>
    rw [fetchTask_cancelled w cfg dest t o r hc] at h
    simp only [Prod.mk.injEq, and_true] at h
    subst h
    have s0 : exec cfg [.task ended.length (answerOf w t 0 o.Key (w.join dest o.Key))]
        (Machine.atTask r.status main ended k o .started) =
        some (Machine.atTask r.status main ended k o .exiting) := by
      simp only [exec, step_atTask]
      simp [stepTask, Machine.atTask, Machine.setTask, set_snoc, answerOf, hc]
    exact ⟨_, exec_trans cfg _ _ _ _ _ s0 (hexit _)⟩
  | false =>
    have s1 : exec cfg [.task ended.length (answerOf w t 0 o.Key (w.join dest o.Key))]
        (Machine.atTask r.status main ended k o .started) =
        some (Machine.atTask r.status main ended k o .checked) := by
      simp only [exec, step_atTask]
      simp [stepTask, Machine.atTask, Machine.setTask, set_snoc, answerOf, hc]
    by_cases hs : w.stat t (w.join dest o.Key) = some o.Size
    · rw [fetchTask_present w cfg dest t o r hc hs] at h
      simp only [Prod.mk.injEq, and_true] at h
      subst h
      have s2 : exec cfg [.task ended.length (answerOf w t 0 o.Key (w.join dest o.Key))]
          (Machine.atTask r.status main ended k o .checked) =
          some (Machine.atTask r.addFinished.status main ended k o .exiting) := by
        simp only [exec, step_atTask]
        simp [stepTask, Machine.atTask, Machine.setTask, set_snoc, answerOf, hs, Run.addFinished]
      exact ⟨_, exec_trans cfg _ _ _ _ _ s1 (exec_trans cfg _ _ _ _ _ s2 (hexit _))⟩
    · have s2 : exec cfg [.task ended.length (answerOf w t 0 o.Key (w.join dest o.Key))]
          (Machine.atTask r.status main ended k o .checked) =
          some (Machine.atTask r.status main ended k o (.retrying 0 none)) := by
        simp only [exec, step_atTask]
        simp [stepTask, Machine.atTask, Machine.setTask, set_snoc, answerOf, hs]
      rcases hrun : retryLoop w t o.Key (w.join dest o.Key) (cfg.MaxRetries + 1).toNat 0 none r
        with ⟨r2, x⟩
      obtain ⟨acts, s3⟩ := retryLoop_replay w cfg t o (w.join dest o.Key) main ended k _ 0 none r r2 x
        (by simp) hrun
      cases x with
      | returned =>
        have hres : fetchTask w cfg dest t o r = (r2, false) := by
          simp [fetchTask, hc, hs, hrun]
        rw [hres] at h
        simp only [Prod.mk.injEq, and_true] at h
        subst h
        exact ⟨_, exec_trans cfg _ _ _ _ _ s1 (exec_trans cfg _ _ _ _ _ s2
          (exec_trans cfg _ _ _ _ _ s3 (hexit _)))⟩
      | fellThrough d =>
        cases d with
        | none =>
          have hres : fetchTask w cfg dest t o r = (r2.addFailed, true) := by
            simp [fetchTask, hc, hs, hrun]
          rw [hres] at h
          simp at h
        | some msg =>
          have hres : fetchTask w cfg dest t o r = (r2.addFailed.setLastError msg, false) := by
            simp [fetchTask, hc, hs, hrun]
          rw [hres] at h
          simp only [Prod.mk.injEq, and_true] at h
          subst h
          have s4 : exec cfg [.task ended.length (answerOf w t 0 o.Key (w.join dest o.Key))]
              (Machine.atTask r2.addFailed.status main ended k o (.failing (some msg))) =
              some (Machine.atTask (r2.addFailed.setLastError msg).status main ended k o
                .exiting) := by
            simp only [exec, step_atTask]
            simp [stepTask, Machine.atTask, Machine.setTask, set_snoc, Run.setLastError]
          exact ⟨_, exec_trans cfg _ _ _ _ _ s1 (exec_trans cfg _ _ _ _ _ s2
            (exec_trans cfg _ _ _ _ _ s3 (exec_trans cfg _ _ _ _ _ s4 (hexit _))))⟩

/-- A step of the goroutine of `Worker` in a state `quiet`. -/
theorem step_quiet (cfg : Config) (st : JobStatus) (main : MainPc)
    (ended : List (ObjectInfo × TaskPc)) (n : Nat) (raw : List RawObject) :
    step cfg (Machine.quiet st main ended n) (.main raw) =
      stepMain cfg (Machine.quiet st main ended n) raw := by
  simp [step, Machine.quiet]

/-- The dispatch of a non-directory entry, replayed by the machine: `Total` is
incremented, the slot is taken, the goroutine is started. -/
theorem dispatch_replay (cfg : Config) (hc : 1 ≤ cfg.Concurrency) (st : JobStatus)
    (ended : List (ObjectInfo × TaskPc)) (n : Nat) (o : ObjectInfo) (list : List ObjectInfo)
    (c : Cursor) (hlist : c.list = o :: list) (hdir : o.IsDir = false) :
    exec cfg [.main [], .main [], .main []] (Machine.quiet st (.ranging c) ended n) =
      some (Machine.atTask { st with Total := st.Total + 1 } (.ranging { c with list := list })
        ended n o .started) := by
  have hroom : (0 : Int) < cfg.Concurrency := by omega
  simp only [exec, step_quiet]
  simp [stepMain, Machine.quiet, hlist, hdir, step, hroom, Machine.atTask]

/-- The objects loop of the functional `Worker`, replayed by the machine. -/
theorem objectsLoop_replay (w : World) (cfg : Config) (dest : String)
    (hc : 1 ≤ cfg.Concurrency) (next pfx : String) (rest : List String) (n : Nat) :
    ∀ (list : List ObjectInfo) (r r1 : Run) (ended : List (ObjectInfo × TaskPc)),
      objectsLoop w cfg dest list r = (r1, Exit.normal) →
      ∃ acts ended1,
        exec cfg acts (Machine.quiet r.status
          (.ranging { list := list, next := next, pfx := pfx, rest := rest }) ended n) =
        some (Machine.quiet r1.status
          (.ranging { list := [], next := next, pfx := pfx, rest := rest }) ended1 n) := by
  intro list
  induction list with
  | nil =>
    intro r r1 ended h
    simp only [objectsLoop, Prod.mk.injEq, and_true] at h
    subst h
    exact ⟨[], ended, rfl⟩
  | cons o list ih =>
    intro r r1 ended h
    by_cases hdir : o.IsDir = true
    · have h2 : objectsLoop w cfg dest list r = (r1, Exit.normal) := by
        simpa [objectsLoop, hdir] using h
      obtain ⟨acts, ended1, hacts⟩ := ih r r1 ended h2
      have s0 : exec cfg [.main []] (Machine.quiet r.status
          (.ranging { list := o :: list, next := next, pfx := pfx, rest := rest }) ended n) =
          some (Machine.quiet r.status
            (.ranging { list := list, next := next, pfx := pfx, rest := rest }) ended n) := by
        simp only [exec, step_quiet]
        simp [stepMain, Machine.quiet, hdir]
      exact ⟨_, ended1, exec_trans cfg _ _ _ _ _ s0 hacts⟩
    · have hfile : o.IsDir = false := by simpa using hdir
      rw [objectsLoop_cons_file w cfg dest o list r hdir (by omega)] at h
      rcases htask : fetchTask w cfg dest r.nTask o (r.addTotal.startTask o.Key) with ⟨r3, p⟩
      rw [htask] at h
      cases p with
      | true => simp at h
      | false =>
        simp only at h
        obtain ⟨acts2, ended1, hacts2⟩ := ih r3 r1 (ended ++ [(o, .done)]) h
        have s0 := dispatch_replay cfg hc r.status ended n o list
          { list := o :: list, next := next, pfx := pfx, rest := rest } rfl hfile
        obtain ⟨acts1, s1⟩ := fetchTask_replay w cfg dest r.nTask o
          (.ranging { list := list, next := next, pfx := pfx, rest := rest }) ended n
          (r.addTotal.startTask o.Key) r3 htask
        exact ⟨_, ended1, exec_trans cfg _ _ _ _ _ s0 (exec_trans cfg _ _ _ _ _ s1 hacts2)⟩

/-- The pagination loop of the functional `Worker`, replayed by the machine up to the
next prefix. -/
theorem pageLoop_replay (w : World) (cfg : Config) (dest pfx : String)
    (hc : 1 ≤ cfg.Concurrency) (rest : List String) :
    ∀ (fuel : Nat) (marker : String) (r r1 : Run) (ended : List (ObjectInfo × TaskPc))
      (n : Nat),
      pageLoop w cfg dest pfx fuel marker r = some (r1, Exit.normal) →
      ∃ acts ended1 n1,
        exec cfg acts (Machine.quiet r.status (.listing pfx marker rest) ended n) =
          some (Machine.quiet r1.status (nextPrefix rest) ended1 n1) := by
  intro fuel
  induction fuel with
  | zero => intro marker r r1 ended n h; simp [pageLoop] at h
  | succ fuel ih =>
    intro marker r r1 ended n h
    cases hl : ListObjects (w.listing r.nList pfx marker) with
    | error msg =>
      rw [pageLoop_error w cfg dest pfx fuel marker r msg hl] at h
      simp at h
    | ok p =>
      obtain ⟨list, next⟩ := p
      rw [pageLoop_ok w cfg dest pfx fuel marker r list next hl] at h
      have s0 : exec cfg [.main (w.listing r.nList pfx marker)]
          (Machine.quiet r.status (.listing pfx marker rest) ended n) =
          some (Machine.quiet (r.listed pfx marker).status
            (.ranging { list := list, next := next, pfx := pfx, rest := rest }) ended
            (n + 1)) := by
        simp only [exec, step_quiet]
        simp [stepMain, Machine.quiet, hl, Run.listed]
      rcases hobj : objectsLoop w cfg dest list (r.listed pfx marker) with ⟨r2, e2⟩
      rw [hobj] at h
      cases e2 with
      | normal =>
        simp only at h
        obtain ⟨acts1, ended1, s1⟩ := objectsLoop_replay w cfg dest hc next pfx rest (n + 1) list
          (r.listed pfx marker) r2 ended hobj
        by_cases hn : next = ""
        · simp only [hn, if_true, Option.some.injEq, Prod.mk.injEq, and_true] at h
          subst h
          have s2 : exec cfg [.main []] (Machine.quiet r2.status
              (.ranging { list := [], next := next, pfx := pfx, rest := rest }) ended1 (n + 1)) =
              some (Machine.quiet r2.status (nextPrefix rest) ended1 (n + 1)) := by
            simp only [exec, step_quiet]
            simp [stepMain, Machine.quiet, hn]
          exact ⟨_, ended1, n + 1, exec_trans cfg _ _ _ _ _ s0 (exec_trans cfg _ _ _ _ _ s1 s2)⟩
        · simp only [hn, if_false] at h
          have s2 : exec cfg [.main []] (Machine.quiet r2.status
              (.ranging { list := [], next := next, pfx := pfx, rest := rest }) ended1 (n + 1)) =
              some (Machine.quiet r2.status (.listing pfx next rest) ended1 (n + 1)) := by
            simp only [exec, step_quiet]
            simp [stepMain, Machine.quiet, hn]
          obtain ⟨acts3, ended3, n3, s3⟩ := ih next r2 r1 ended1 (n + 1) h
          exact ⟨_, ended3, n3, exec_trans cfg _ _ _ _ _ s0 (exec_trans cfg _ _ _ _ _ s1
            (exec_trans cfg _ _ _ _ _ s2 s3))⟩
      | panicked => simp at h
      | blocked => simp at h

/-- The loop over the prefixes of the functional `Worker`, replayed by the machine up
to `wg.Wait()`. -/
theorem prefixLoop_replay (w : World) (cfg : Config) (dest : String) (fuel : Nat)
    (hc : 1 ≤ cfg.Concurrency) :
    ∀ (prefixes : List String) (r r1 : Run) (ended : List (ObjectInfo × TaskPc)) (n : Nat),
      prefixLoop w cfg dest fuel prefixes r = some (r1, Exit.normal) →
      ∃ acts ended1 n1,
        exec cfg acts (Machine.quiet r.status (nextPrefix prefixes) ended n) =
          some (Machine.quiet r1.status .waiting ended1 n1) := by
  intro prefixes
  induction prefixes with
  | nil =>
    intro r r1 ended n h
    simp only [prefixLoop, Option.some.injEq, Prod.mk.injEq, and_true] at h
    subst h
    exact ⟨[], ended, n, rfl⟩
  | cons pfx rest ih =>
    intro r r1 ended n h
    simp only [prefixLoop] at h
    cases hp : pageLoop w cfg dest pfx fuel "" r with
    | none => rw [hp] at h; simp at h
    | some res =>
      obtain ⟨r2, e2⟩ := res
      rw [hp] at h
      cases e2 with
      | normal =>
        simp only at h
        obtain ⟨acts1, ended1, n1, s1⟩ :=
          pageLoop_replay w cfg dest pfx hc rest fuel "" r r2 ended n hp
        obtain ⟨acts2, ended2, n2, s2⟩ := ih r2 r1 ended1 n1 h
        exact ⟨_, ended2, n2, exec_trans cfg _ _ _ _ _ s1 s2⟩
      | panicked => simp at h
      | blocked => simp at h

/-- The functional `Worker` is a schedule of the machine: whenever it returns, with
`Concurrency >= 1`, the machine can run from the call of `Worker` to a state in which
`Worker` has returned, no fetch goroutine is running, and the status is the one the
function computes. -/
theorem Worker_is_a_schedule (fuel : Nat) (w : World) (cfg : Config)
    (prefixes : List String) (dest : String) (status : JobStatus) (r : Run)
    (hc : 1 ≤ cfg.Concurrency)
    (h : Worker fuel w cfg prefixes dest status = some (r, Exit.normal)) :
    ∃ acts ended n, exec cfg acts (Machine.init prefixes status) =
      some (Machine.quiet r.status .returned ended n) := by
  have hneg : ¬ cfg.Concurrency < 0 := by omega
  have s0 : exec cfg [.main [], .main []] (Machine.init prefixes status) =
      some (Machine.quiet (WorkerEntry status).status (nextPrefix prefixes) [] 0) := by
    simp [exec, step, Machine.init, stepMain, hneg, Machine.quiet, WorkerEntry, Run.setRunning]
  unfold Worker at h
  simp only [hneg, if_false] at h
  cases hp : prefixLoop w cfg dest fuel prefixes (WorkerEntry status) with
  | none => rw [hp] at h; simp at h
  | some res =>
    obtain ⟨r1, e1⟩ := res
    rw [hp] at h
    cases e1 with
    | normal =>
      simp only [Option.some.injEq, Prod.mk.injEq, and_true] at h
      subst h
      obtain ⟨acts1, ended1, n1, s1⟩ := prefixLoop_replay w cfg dest fuel hc prefixes _ r1 [] 0 hp
      have s2 : exec cfg [.main []] (Machine.quiet r1.status .waiting ended1 n1) =
          some (Machine.quiet (r1.setRunning false).status .returned ended1 n1) := by
        simp only [exec, step_quiet]
        simp [stepMain, Machine.quiet, Run.setRunning]
      exact ⟨_, ended1, n1, exec_trans cfg _ _ _ _ _ s0 (exec_trans cfg _ _ _ _ _ s1 s2)⟩
    | panicked => simp at h
    | blocked => simp at h

end S3Download.downloader

namespace S3Download.job

open downloader

/-- C7, on the code: two calls of `New` at different clock readings within one
millisecond return the same identifier; the second call replaces the first job in
the registry, `Get` of the identifier returns the second job, and the first job is
no longer retrievable under any identifier. -/
theorem New_same_millisecond_collides :
    readingA ≠ readingB ∧
    (New readingA [] jobA).1 = "20240307090501.123" ∧
    (New readingB (New readingA [] jobA).2 jobB).1 = "20240307090501.123" ∧
    Get (New readingB (New readingA [] jobA).2 jobB).2 "20240307090501.123" = some jobB ∧
    ∀ id, Get (New readingB (New readingA [] jobA).2 jobB).2 id ≠ some jobA := by
  refine ⟨by decide, by decide, by decide, by decide, ?_⟩
  intro id
  have h : (New readingB (New readingA [] jobA).2 jobB).2 = [("20240307090501.123", jobB)] := by
    decide
  rw [h]
  simp only [Get, List.find?]
  split <;> simp [jobA, jobB]

end S3Download.job

namespace S3Download.handler

open downloader job config

/-- C10. `Start` hands `Worker` a context derived by `WithCancel` from the context of
the request.  So whenever the request context is done, the context of the job is
done, whether or not the `CancelFunc` of the job was called; and a fetch task that
observes the job context in such a moment returns at its cancellation check: it
leaves the run as it found it (no `Download` call, no increment of `Finished` or
`Failed`). -/
theorem Start_context_done_with_request (cfgDest : String) (m : Registry) (now : Time)
    (cancel : Nat) (req : startReq) (hreq : req.Prefixes.length ≠ 0) :
    ∃ l, (Start cfgDest m now cancel (some req)).launch = some l ∧
      l.ctx = Ctx.withCancel Ctx.request cancel ∧
      l.prefixes = req.Prefixes ∧
      ∀ σ : Signals, σ.requestDone = true →
        l.ctx.done σ = true ∧
        ∀ (w : World) (cfg : Config) (t : Nat) (o : ObjectInfo) (r : Run),
          w.ctxDone t = l.ctx.done σ →
          fetchTask w cfg l.dest t o r = (r, false) ∧
          downloadCalls (fetchTask w cfg l.dest t o r).1.trace = downloadCalls r.trace ∧
          (fetchTask w cfg l.dest t o r).1.status = r.status := by
  refine ⟨{ ctx := Ctx.withCancel Ctx.request cancel, prefixes := req.Prefixes,
            dest := if req.Dest ≠ "" then req.Dest else cfgDest,
            jobId := (New now m { Status := zeroStatus, Cancel := cancel }).1 },
    by simp only [Start, hreq, if_false], rfl, rfl, ?_⟩
  intro σ hσ
  have hdone : (Ctx.withCancel Ctx.request cancel).done σ = true := by
    simp [Ctx.done, hσ]
  refine ⟨hdone, ?_⟩
  intro w cfg t o r hobs
  have hc : w.ctxDone t = true := by rw [hobs]; exact hdone
  rw [fetchTask_cancelled w cfg _ t o r hc]
  exact ⟨rfl, rfl, rfl⟩

/-- Instance of C10: a request for the prefix `a/`; the request context is done and
the `CancelFunc` number 7 of the job was never called. -/
theorem Start_context_done_with_request_witness :
    ∃ l, (Start "./data" [] readingA 7
        (some { Prefixes := ["a/"], Bucket := "", Dest := "" })).launch = some l ∧
      l.ctx = Ctx.withCancel Ctx.request 7 ∧
      l.prefixes = ["a/"] ∧
      l.ctx.done requestGone = true ∧
      requestGone.cancelCalled 7 = false ∧
      fetchTask (goneWorld l.ctx) defaultConfig l.dest 0 (entryOf rawX)
        (WorkerEntry zeroStatus) = (WorkerEntry zeroStatus, false) := by
  obtain ⟨l, h1, h2, h3, h4⟩ := Start_context_done_with_request "./data" [] readingA 7
    { Prefixes := ["a/"], Bucket := "", Dest := "" } (by decide)
  obtain ⟨h5, h6⟩ := h4 requestGone rfl
  exact ⟨l, h1, h2, h3, h5, rfl,
    (h6 (goneWorld l.ctx) defaultConfig 0 (entryOf rawX) (WorkerEntry zeroStatus) rfl).1⟩

end S3Download.handler
